import Mathlib

/-!
Verification development for the megamaid cleanup pipeline.

The Rust sources are shallowly embedded: filesystem paths are modeled as
lists of components (`FsPath`); an absolute Unix path such as
/test/target is the list ["", "test", "target"], so that rendering with
a "/" separator reproduces the OS string. The filesystem itself is an
oracle record of boolean/metadata queries, since the engines only probe
it through a fixed set of primitives. Machine integers (u64 sizes) are
modeled as Nat; the one saturating addition in the sources is modeled
explicitly.
-/

deriving instance DecidableEq for Except

namespace Megamaid

/-- A filesystem path, modeled as its list of components. -/
abbrev FsPath := List String

/-- Length of the rendered path string plus one: each component
contributes its length plus one separator. -/
def rawLen : FsPath → Nat
  | [] => 0
  | c :: rest => c.length + 1 + rawLen rest

/-- Length of the OS string of a path (model of Rust
path.as_os_str().len(), the sort key in PlanGenerator::generate). -/
def pathOsLen (p : FsPath) : Nat :=
  rawLen p - 1

/-- Model of Rust Path::starts_with: component-wise prefix test.
First argument is the child, second the candidate ancestor. -/
def startsWithPath : FsPath → FsPath → Bool
  | _, [] => true
  | [], _ :: _ => false
  | a :: restA, b :: restB => a == b && startsWithPath restA restB

/-- Model of path.strip_prefix(base).unwrap_or(path): drops the base
components when base is a component-wise prefix, else the path is kept. -/
def stripBase (base p : FsPath) : FsPath :=
  if startsWithPath p base then p.drop base.length else p

/-- ASCII lowercasing of one character (model of to_ascii_lowercase). -/
def asciiLowerChar (c : Char) : Char :=
  if 'A' ≤ c ∧ c ≤ 'Z' then Char.ofNat (c.toNat + 32) else c

/-- ASCII lowercasing of a string (model of str::to_ascii_lowercase). -/
def asciiLower (s : String) : String :=
  String.mk (s.data.map asciiLowerChar)

/-- Model of Rust Path::file_name: the last component. -/
def fileName (p : FsPath) : Option String :=
  p.getLast?

/-- The characters after the last dot of a character list, when a dot
occurs at all. -/
def afterLastDot : List Char → Option (List Char)
  | [] => none
  | c :: rest =>
    match afterLastDot rest with
    | some s => some s
    | none => if c == '.' then some rest else none

/-- Model of Rust Path::extension on a file name: None when there is no
embedded dot, or when the name begins with a dot and has no other dot;
otherwise the portion after the final dot. -/
def rustExtension (name : String) : Option String :=
  match name.data with
  | [] => none
  | c0 :: rest =>
    if c0 == '.' then (afterLastDot rest).map String.mk
    else (afterLastDot (c0 :: rest)).map String.mk

/-- Model of Rust Path::extension on a whole path. -/
def pathExtension (p : FsPath) : Option String :=
  match fileName p with
  | none => none
  | some n => rustExtension n

/-- Entry type (src/models/file_entry.rs, EntryType). -/
inductive EntryType where
  | File
  | Directory
deriving DecidableEq

/-- One filesystem object observed during a scan
(src/models/file_entry.rs, FileEntry); modification time in seconds. -/
structure FileEntry where
  path : FsPath
  size : Nat
  modified : Int
  entryType : EntryType
  fileId : Option Nat
deriving DecidableEq

/-- Context information for detection rules (src/detector/engine.rs,
ScanContext); the source struct has no fields. -/
structure ScanContext where

/-- A detection rule value: the capability set {name, match predicate,
reason producer} of the DetectionRule trait (src/detector/rules.rs). -/
structure DetectionRule where
  name : String
  shouldFlag : FileEntry → ScanContext → Bool
  reason : String

/-- Result of applying detection rules to an entry
(src/detector/engine.rs, DetectionResult). -/
structure DetectionResult where
  entry : FileEntry
  ruleName : String
  reason : String
deriving DecidableEq

/-- Oracle for the filesystem probes the detection engine and planner
perform (Path::is_file, Path::is_dir, Path::exists). -/
structure FileSystem where
  isFile : FsPath → Bool
  isDir : FsPath → Bool
  fsExists : FsPath → Bool

/-- Source-code extensions protected by is_protected_source
(src/detector/engine.rs, SOURCE_EXTS). -/
def sourceExts : List String :=
  ["rs", "ts", "tsx", "js", "jsx", "svelte", "vue", "py", "go", "java", "kt",
   "c", "cc", "cpp", "h", "hpp", "cs", "rb", "php"]

/-- Source/config directory names protected by is_protected_source
(src/detector/engine.rs, SOURCE_DIRS). -/
def sourceDirs : List String :=
  ["src", "app", "apps", "lib", "libs", "packages", ".git", ".hg", ".svn",
   ".idea", ".vscode", "config", "configs", "docs"]

/-- Model of is_protected_source (src/detector/engine.rs, lines 95-125). -/
def is_protected_source (fs : FileSystem) (e : FileEntry) : Bool :=
  (fs.isFile e.path &&
    (match pathExtension e.path with
     | some ext => sourceExts.contains (asciiLower ext)
     | none => false))
  ||
  (fs.isDir e.path &&
    (match fileName e.path with
     | some n => sourceDirs.contains (asciiLower n)
     | none => false))

/-- Conventional generated-output directory names recognized by
is_known_junk_dir (src/detector/engine.rs, lines 164-182). -/
def junkDirNames : List String :=
  ["node_modules", "target", "dist", "build", ".next", "__pycache__",
   ".pytest_cache", ".cache", "bin", "obj"]

/-- Model of is_known_junk_dir: the base name, ASCII-lowercased, is one
of the conventional generated-output directory names. -/
def is_known_junk_dir (p : FsPath) : Bool :=
  match fileName p with
  | some n => junkDirNames.contains (asciiLower n)
  | none => false

/-- Project-root marker names probed by is_repo_root. -/
def repoRootCandidates : List String :=
  [".git", ".hg", ".svn", "package.json", "Cargo.toml"]

/-- Model of is_repo_root (src/detector/engine.rs, lines 127-145): a
directory that is not itself a known junk directory and either is the
current-directory path or directly contains a root marker. -/
def is_repo_root (fs : FileSystem) (e : FileEntry) : Bool :=
  if e.entryType ≠ EntryType.Directory then false
  else if is_known_junk_dir e.path then false
  else if e.path = ["."] then true
  else repoRootCandidates.any (fun c => fs.fsExists (e.path ++ [c]))

/-- Manifest file names probed by is_protected_manifest. -/
def manifestNames : List String :=
  ["package.json", "Cargo.toml", "pyproject.toml"]

/-- Model of is_protected_manifest (src/detector/engine.rs, lines
147-162). -/
def is_protected_manifest (fs : FileSystem) (e : FileEntry) : Bool :=
  if e.entryType ≠ EntryType.Directory then false
  else if is_known_junk_dir e.path then false
  else manifestNames.any (fun m => fs.fsExists (e.path ++ [m]))

/-- Inner rule loop of DetectionEngine::analyze (src/detector/engine.rs,
lines 67-83): first matching rule wins; a build_artifact match on a repo
root is passed over (the continue on line 78). -/
def findFirstDetection (fs : FileSystem) (ctx : ScanContext) (e : FileEntry) :
    List DetectionRule → Option DetectionResult
  | [] => none
  | r :: rest =>
    if r.shouldFlag e ctx then
      if r.name == "build_artifact" && is_repo_root fs e then
        findFirstDetection fs ctx e rest
      else
        some ⟨e, r.name, r.reason⟩
    else findFirstDetection fs ctx e rest

/-- Per-entry body of DetectionEngine::analyze: protected entries are
excluded before rule matching (src/detector/engine.rs, lines 61-83). -/
def analyzeEntry (fs : FileSystem) (rules : List DetectionRule)
    (ctx : ScanContext) (e : FileEntry) : Option DetectionResult :=
  if is_protected_source fs e || is_repo_root fs e || is_protected_manifest fs e then
    none
  else findFirstDetection fs ctx e rules

/-- Model of DetectionEngine::analyze (src/detector/engine.rs, lines
58-87). -/
def analyze (fs : FileSystem) (rules : List DetectionRule)
    (entries : List FileEntry) (ctx : ScanContext) : List DetectionResult :=
  entries.filterMap (analyzeEntry fs rules ctx)

/-- Model of SizeThresholdRule (src/detector/rules.rs, lines 18-39). -/
def sizeThresholdRule (thresholdBytes : Nat) : DetectionRule :=
  ⟨"large_file",
   fun e _ => decide (thresholdBytes ≤ e.size),
   "File exceeds size threshold of " ++ toString (thresholdBytes / 1048576) ++ " MB"⟩

/-- Default patterns of BuildArtifactRule (src/detector/rules.rs,
lines 46-62). -/
def buildArtifactPatterns : List String :=
  ["target", "node_modules", "build", ".next", "dist", "__pycache__",
   ".pytest_cache", "bin", "obj"]

/-- Model of BuildArtifactRule (src/detector/rules.rs, lines 76-99):
flags only directories whose base name equals one of the patterns. -/
def buildArtifactRule (patterns : List String) : DetectionRule :=
  ⟨"build_artifact",
   fun e _ => e.entryType == EntryType.Directory
     && patterns.any (fun pat => ((fileName e.path).getD "") == pat),
   "Common build artifact directory"⟩

/-- The rule list of DetectionEngine::new (src/detector/engine.rs,
lines 34-43): 100 MB size threshold, then build artifacts. -/
def defaultRules : List DetectionRule :=
  [sizeThresholdRule (100 * 1048576), buildArtifactRule buildArtifactPatterns]

/-- Errors of the sequential scanner (src/scanner/traversal.rs,
ScanError); error payloads are carried as message strings. -/
inductive SeqScanError where
  | io (msg : String)
  | walk (msg : String)
  | pathNotFound (msg : String)
deriving DecidableEq

/-- Kind of a metadata record: file, directory, or other (symlink). -/
inductive MetaKind where
  | file
  | dir
  | other
deriving DecidableEq

/-- Result of a successful metadata call: kind, byte length, and the
modification time (none models metadata.modified() failing). -/
structure WalkMeta where
  kind : MetaKind
  len : Nat
  modified : Option Int
deriving DecidableEq

/-- Largest u64 value. -/
def U64MAX : Nat := 18446744073709551615

/-- Model of u64::saturating_add. -/
def satAdd (a b : Nat) : Nat := min (a + b) U64MAX

/-- Loop of FileScanner::calculate_dir_size (src/scanner/traversal.rs,
lines 107-122) over the stream of walkdir results for one directory: a
walk error is propagated immediately; files add their length with
saturation. -/
def calcDirSizeGo (acc : Nat) :
    List (Except String WalkMeta) → Except SeqScanError Nat
  | [] => Except.ok acc
  | Except.error msg :: _ => Except.error (SeqScanError.walk msg)
  | Except.ok md :: rest =>
      calcDirSizeGo (if md.kind == MetaKind.file then satAdd acc md.len else acc) rest

/-- Model of FileScanner::calculate_dir_size. -/
def calcDirSize (walk : List (Except String WalkMeta)) : Except SeqScanError Nat :=
  calcDirSizeGo 0 walk

/-- One item yielded by the sequential walk: its path, file name, the
result of its metadata call, and the stream its own recursive size
walk would yield when it is a directory. -/
structure RawEntry where
  path : FsPath
  fname : String
  meta : Except String WalkMeta
  dirWalk : List (Except String WalkMeta)
deriving DecidableEq

/-- Configuration for the sequential scanner (src/scanner/traversal.rs,
ScanConfig). -/
structure ScanConfig where
  followLinks : Bool
  maxDepth : Option Nat
  skipHidden : Bool
deriving DecidableEq

/-- Tests whether a string starts with a dot (str::starts_with on a
char pattern). -/
def firstCharIsDot (s : String) : Bool :=
  match s.data with
  | [] => false
  | c :: _ => c == '.'

/-- Model of FileScanner::should_skip (src/scanner/traversal.rs, lines
71-80). -/
def shouldSkip (cfg : ScanConfig) (e : RawEntry) : Bool :=
  cfg.skipHidden && (firstCharIsDot e.fname && !(e.fname == "."))

/-- Model of FileScanner::to_file_entry (src/scanner/traversal.rs,
lines 83-105): metadata and modified failures propagate, directory
sizes are recomputed recursively. -/
def toFileEntry (e : RawEntry) : Except SeqScanError FileEntry :=
  match e.meta with
  | Except.error msg => Except.error (SeqScanError.walk msg)
  | Except.ok md =>
    match (if md.kind == MetaKind.dir then calcDirSize e.dirWalk else Except.ok md.len) with
    | Except.error er => Except.error er
    | Except.ok size =>
      match md.modified with
      | none => Except.error (SeqScanError.io "modified")
      | some m =>
        Except.ok ⟨e.path, size, m,
          if md.kind == MetaKind.dir then EntryType.Directory else EntryType.File, none⟩

/-- Loop of FileScanner::scan (src/scanner/traversal.rs, lines 54-65)
over the walk stream: the first yielded error aborts the whole scan. -/
def scanGo (cfg : ScanConfig) :
    List (Except String RawEntry) → Except SeqScanError (List FileEntry)
  | [] => Except.ok []
  | Except.error msg :: _ => Except.error (SeqScanError.walk msg)
  | Except.ok re :: rest =>
    if shouldSkip cfg re then scanGo cfg rest
    else
      match toFileEntry re with
      | Except.error er => Except.error er
      | Except.ok fe =>
        match scanGo cfg rest with
        | Except.error er => Except.error er
        | Except.ok l => Except.ok (fe :: l)

/-- Model of FileScanner::scan (src/scanner/traversal.rs, lines 46-68);
rootOk models root.exists(). -/
def seqScan (cfg : ScanConfig) (rootOk : Bool)
    (walk : List (Except String RawEntry)) : Except SeqScanError (List FileEntry) :=
  if rootOk then scanGo cfg walk else Except.error (SeqScanError.pathNotFound "root")

/-- A node of the directory tree as seen by the parallel scanner's size
computation: the result of the node's metadata call, and the result of
reading its children (none models a failed read_dir). -/
inductive PNode where
  | mk (meta : Option WalkMeta) (children : Option (List PNode))

mutual

/-- Contribution of one read_dir child inside
ParallelScanner::calculate_dir_size (src/scanner/parallel.rs, lines
220-232): a failed metadata call is skipped, files add their length,
directories recurse with errors tolerated as zero. -/
def pChildContrib : PNode → Nat
  | PNode.mk none _ => 0
  | PNode.mk (some md) ch =>
      if md.kind == MetaKind.file then md.len
      else if md.kind == MetaKind.dir then
        match pCalcDirSize ch with
        | Except.ok n => n
        | Except.error _ => 0
      else 0

/-- Sum of the contributions of a directory's children. -/
def pSumChildren : List PNode → Nat
  | [] => 0
  | c :: rest => pChildContrib c + pSumChildren rest

/-- Model of ParallelScanner::calculate_dir_size and
calculate_dir_size_recursive (src/scanner/parallel.rs, lines 214-236
and 255-276): only a failed top-level read_dir is an error. -/
def pCalcDirSize : Option (List PNode) → Except Unit Nat
  | none => Except.error ()
  | some cs => Except.ok (pSumChildren cs)

end

/-- One item of the parallel scanner's phase-1 path list, with the
results of the filesystem probes its processing performs. -/
structure PRawEntry where
  path : FsPath
  meta : Option WalkMeta
  children : Option (List PNode)

/-- Model of ParallelScanner::process_entry (src/scanner/parallel.rs,
lines 185-212). -/
def processEntry (e : PRawEntry) : Except Unit (Option FileEntry) :=
  match e.meta with
  | none => Except.error ()
  | some md =>
    match (if md.kind == MetaKind.dir then pCalcDirSize e.children else Except.ok md.len) with
    | Except.error _ => Except.error ()
    | Except.ok size =>
      match md.modified with
      | none => Except.error ()
      | some m =>
        Except.ok (some ⟨e.path, size, m,
          if md.kind == MetaKind.dir then EntryType.Directory else EntryType.File, none⟩)

/-- Phase 2 of ParallelScanner::scan (src/scanner/parallel.rs, lines
165-182): per-entry failures are recorded (modeled as a count, since
the collection order across workers is unspecified) and the entry is
omitted; the scan itself never aborts. -/
def parScanPhase2 : List PRawEntry → List FileEntry × Nat
  | [] => ([], 0)
  | re :: rest =>
    let p := parScanPhase2 rest
    match processEntry re with
    | Except.ok (some fe) => (fe :: p.1, p.2)
    | Except.ok none => p
    | Except.error _ => (p.1, p.2 + 1)

/-- Action of a cleanup entry (src/models/cleanup_plan.rs,
CleanupAction). -/
inductive CleanupAction where
  | Delete
  | Keep
  | Review
deriving DecidableEq

/-- One entry of a cleanup plan (src/models/cleanup_plan.rs,
CleanupEntry); the relative path is modeled as a component list, the
modification time stays the serialized string. -/
structure CleanupEntry where
  path : FsPath
  size : Nat
  modified : String
  action : CleanupAction
  ruleName : String
  reason : String
deriving DecidableEq

/-- A cleanup plan (src/models/cleanup_plan.rs, CleanupPlan). -/
structure CleanupPlan where
  version : String
  createdAt : Int
  basePath : FsPath
  entries : List CleanupEntry
deriving DecidableEq

/-- Marker names probed by the planner's is_protected_path
(src/planner/generator.rs, lines 122-137). -/
def plannerProtectedCandidates : List String :=
  [".git", ".hg", ".svn", "package.json", "Cargo.toml", "pyproject.toml"]

/-- Model of is_protected_path (src/planner/generator.rs, lines
122-137). -/
def is_protected_path (fs : FileSystem) (p : FsPath) : Bool :=
  plannerProtectedCandidates.any (fun c => fs.fsExists (p ++ [c]))

/-- Model of PlanGenerator::default_action_for_rule
(src/planner/generator.rs, lines 108-114). -/
def default_action_for_rule (ruleName : String) : CleanupAction :=
  if ruleName == "build_artifact" then CleanupAction.Delete
  else if ruleName == "large_file" then CleanupAction.Review
  else CleanupAction.Review

/-- Sort key order of PlanGenerator::generate: OS-string length of the
entry path, ascending. -/
def detLe (a b : DetectionResult) : Prop :=
  pathOsLen a.entry.path ≤ pathOsLen b.entry.path

instance : DecidableRel detLe := fun a b =>
  inferInstanceAs (Decidable (pathOsLen a.entry.path ≤ pathOsLen b.entry.path))

instance : IsTotal DetectionResult detLe :=
  ⟨fun a b => Nat.le_total (pathOsLen a.entry.path) (pathOsLen b.entry.path)⟩

instance : IsTrans DetectionResult detLe :=
  ⟨fun _ _ _ hab hbc => Nat.le_trans hab hbc⟩

/-- The stable sort of detections by ascending path length
(src/planner/generator.rs, lines 35-41); Rust's stable sort_by is
modeled by insertion sort, which is also stable, and stable sorts under
one comparator agree. -/
def sortDetections (dets : List DetectionResult) : List DetectionResult :=
  List.insertionSort detLe dets

/-- State of the generation loop: the directories already assigned
Delete, and the detections kept so far with their assigned action. -/
structure GenState where
  deletedPaths : List FsPath
  kept : List (DetectionResult × CleanupAction)

/-- One iteration of the loop of PlanGenerator::generate
(src/planner/generator.rs, lines 46-98): strict descendants of an
already-deleted directory are dropped; protected paths are downgraded
to Review; directories assigned Delete are tracked. -/
def genStep (fs : FileSystem) (st : GenState) (d : DetectionResult) : GenState :=
  if st.deletedPaths.any (fun dp => startsWithPath d.entry.path dp && !(d.entry.path == dp)) then
    st
  else
    let action :=
      if is_protected_path fs d.entry.path then CleanupAction.Review
      else default_action_for_rule d.ruleName
    { deletedPaths :=
        if d.entry.entryType == EntryType.Directory && action == CleanupAction.Delete then
          st.deletedPaths ++ [d.entry.path]
        else st.deletedPaths,
      kept := st.kept ++ [(d, action)] }

/-- The detections kept by PlanGenerator::generate, paired with their
assigned action, in emission order. -/
def generateKept (fs : FileSystem) (dets : List DetectionResult) :
    List (DetectionResult × CleanupAction) :=
  ((sortDetections dets).foldl (genStep fs) ⟨[], []⟩).kept

/-- Relative-path conversion of PlanGenerator::generate (lines 71-85):
strip the base path, falling back to the original path, and use the
sentinel when the result is empty. -/
def relPathOf (base : FsPath) (p : FsPath) : FsPath :=
  let r := stripBase base p
  if r = [] then ["."] else r

/-- Conversion of one kept detection to a plan entry
(src/planner/generator.rs, lines 71-97); fmt models the RFC3339
rendering of the modification time. -/
def toCleanupEntry (fmt : Int → String) (base : FsPath)
    (pr : DetectionResult × CleanupAction) : CleanupEntry :=
  ⟨relPathOf base pr.1.entry.path, pr.1.entry.size, fmt pr.1.entry.modified,
   pr.2, pr.1.ruleName, pr.1.reason⟩

/-- Model of PlanGenerator::generate (src/planner/generator.rs, lines
26-101). -/
def generate (fs : FileSystem) (fmt : Int → String) (now : Int)
    (base : FsPath) (dets : List DetectionResult) : CleanupPlan :=
  ⟨"0.1.0", now, base, (generateKept fs dets).map (toCleanupEntry fmt base)⟩

/-- Configuration for verification behavior (src/verifier/engine.rs,
VerificationConfig). -/
structure VerificationConfig where
  checkMtime : Bool
  checkSize : Bool
  failFast : Bool
deriving DecidableEq

/-- Kinds of drift (src/verifier/engine.rs, DriftType). -/
inductive DriftType where
  | SizeMismatch
  | ModificationTimeMismatch
deriving DecidableEq

/-- One drift detection (src/verifier/engine.rs, DriftDetection). -/
structure DriftDetection where
  path : FsPath
  driftType : DriftType
  expected : String
  actual : String
deriving DecidableEq

/-- Result of a verification pass (src/verifier/engine.rs,
VerificationResult). -/
structure VerificationResult where
  totalEntries : Nat
  verified : Nat
  drifted : List DriftDetection
  missing : List FsPath
  permissionErrors : List FsPath
deriving DecidableEq

/-- Model of VerificationResult::has_drift (src/verifier/engine.rs,
lines 47-49). -/
def has_drift (r : VerificationResult) : Bool :=
  !r.drifted.isEmpty || !r.missing.isEmpty

/-- Model of VerificationResult::is_safe_to_execute
(src/verifier/engine.rs, lines 54-56). -/
def is_safe_to_execute (r : VerificationResult) : Bool :=
  !(has_drift r)

/-- Errors of the verification engine (src/verifier/engine.rs,
VerificationError), with payloads dropped. -/
inductive VerificationError where
  | io
  | invalidTimestamp
  | walkDir
deriving DecidableEq

/-- Environment of a verification pass: the filesystem probes the
engine performs (Path::exists, fs::metadata, the recursive directory
size walk) and the timestamp conversions (RFC3339 parse and render). -/
structure VerEnv where
  pexists : FsPath → Bool
  metadata : FsPath → Except Unit WalkMeta
  dirSize : FsPath → Except VerificationError Nat
  parse : String → Option Int
  fmtTime : Int → String

/-- Outcome of examining one plan entry: abort the pass with an error,
finish early returning the result (fail-fast), or continue. -/
inductive VStep where
  | abort (er : VerificationError)
  | finish (r : VerificationResult)
  | next (r : VerificationResult)

/-- Modification-time check of VerificationEngine::verify
(src/verifier/engine.rs, lines 142-169): tolerance band of 2 seconds;
a pass through all checks counts the entry as verified. -/
def verifyMtimeStep (cfg : VerificationConfig) (env : VerEnv)
    (r : VerificationResult) (e : CleanupEntry) (full : FsPath) (md : WalkMeta) : VStep :=
  if cfg.checkMtime then
    match md.modified with
    | none => VStep.abort VerificationError.io
    | some cur =>
      match env.parse e.modified with
      | none => VStep.abort VerificationError.invalidTimestamp
      | some expected =>
        if 2 < (cur - expected).natAbs then
          if cfg.failFast then
            VStep.finish { r with drifted := r.drifted ++
              [⟨full, DriftType.ModificationTimeMismatch, e.modified, env.fmtTime cur⟩] }
          else
            VStep.next { r with drifted := r.drifted ++
              [⟨full, DriftType.ModificationTimeMismatch, e.modified, env.fmtTime cur⟩] }
        else VStep.next { r with verified := r.verified + 1 }
  else VStep.next { r with verified := r.verified + 1 }

/-- Size check of VerificationEngine::verify (src/verifier/engine.rs,
lines 119-139): directory sizes are recomputed recursively and that
recomputation's failure aborts the pass; a size drift skips the
modification-time check. -/
def verifySizeStep (cfg : VerificationConfig) (env : VerEnv)
    (r : VerificationResult) (e : CleanupEntry) (full : FsPath) (md : WalkMeta) : VStep :=
  if cfg.checkSize then
    match (if md.kind == MetaKind.dir then env.dirSize full else Except.ok md.len) with
    | Except.error er => VStep.abort er
    | Except.ok cur =>
      if !(cur == e.size) then
        if cfg.failFast then
          VStep.finish { r with drifted := r.drifted ++
            [⟨full, DriftType.SizeMismatch,
              toString e.size ++ " bytes", toString cur ++ " bytes"⟩] }
        else
          VStep.next { r with drifted := r.drifted ++
            [⟨full, DriftType.SizeMismatch,
              toString e.size ++ " bytes", toString cur ++ " bytes"⟩] }
      else verifyMtimeStep cfg env r e full md
  else verifyMtimeStep cfg env r e full md

/-- Examination of one plan entry by VerificationEngine::verify
(src/verifier/engine.rs, lines 91-173): Keep entries are verified
without inspection; a missing path is recorded (and stops the pass
under fail-fast) before any metadata check; a failed metadata call is a
permission warning and nothing else. -/
def verifyEntry (cfg : VerificationConfig) (env : VerEnv) (base : FsPath)
    (r : VerificationResult) (e : CleanupEntry) : VStep :=
  if e.action == CleanupAction.Keep then
    VStep.next { r with verified := r.verified + 1 }
  else
    if !(env.pexists (base ++ e.path)) then
      if cfg.failFast then
        VStep.finish { r with missing := r.missing ++ [base ++ e.path] }
      else VStep.next { r with missing := r.missing ++ [base ++ e.path] }
    else
      match env.metadata (base ++ e.path) with
      | Except.error _ =>
        VStep.next { r with permissionErrors := r.permissionErrors ++ [base ++ e.path] }
      | Except.ok md => verifySizeStep cfg env r e (base ++ e.path) md

/-- Entry loop of VerificationEngine::verify. -/
def verifyLoop (cfg : VerificationConfig) (env : VerEnv) (base : FsPath) :
    List CleanupEntry → VerificationResult → Except VerificationError VerificationResult
  | [], r => Except.ok r
  | e :: rest, r =>
    match verifyEntry cfg env base r e with
    | VStep.abort er => Except.error er
    | VStep.finish r' => Except.ok r'
    | VStep.next r' => verifyLoop cfg env base rest r'

/-- Model of VerificationEngine::verify (src/verifier/engine.rs, lines
82-176). -/
def verify (cfg : VerificationConfig) (env : VerEnv) (plan : CleanupPlan) :
    Except VerificationError VerificationResult :=
  verifyLoop cfg env plan.basePath plan.entries ⟨plan.entries.length, 0, [], [], []⟩

/-- Execution modes (src/executor/engine.rs, ExecutionMode). -/
inductive ExecutionMode where
  | DryRun
  | Interactive
  | Batch
deriving DecidableEq

/-- Configuration for execution behavior (src/executor/engine.rs,
ExecutionConfig). -/
structure ExecutionConfig where
  mode : ExecutionMode
  backupDir : Option FsPath
  failFast : Bool
  useRecycleBin : Bool
  parallel : Bool
  batchSize : Nat
deriving DecidableEq

/-- Action performed on an entry (src/executor/engine.rs,
OperationAction). -/
inductive OperationAction where
  | Delete
  | MoveToBackup
  | MoveToRecycleBin
  | Skip
deriving DecidableEq

/-- Status of an operation (src/executor/engine.rs, OperationStatus). -/
inductive OperationStatus where
  | Success
  | Failed
  | Skipped
  | DryRun
deriving DecidableEq

/-- Result of a single operation (src/executor/engine.rs,
OperationResult); timestamps are ticks of the model clock. -/
structure OperationResult where
  path : FsPath
  action : OperationAction
  status : OperationStatus
  sizeFreed : Option Nat
  error : Option String
  timestamp : Nat
deriving DecidableEq

/-- Summary of execution (src/executor/engine.rs, ExecutionSummary). -/
structure ExecutionSummary where
  totalOperations : Nat
  successful : Nat
  failed : Nat
  skipped : Nat
  spaceFreed : Nat
  duration : Nat
deriving DecidableEq

/-- Result of an execution (src/executor/engine.rs, ExecutionResult). -/
structure ExecutionResult where
  operations : List OperationResult
  summary : ExecutionSummary
deriving DecidableEq

/-- Parsed interactive responses (src/executor/engine.rs, UserChoice);
unparseable input becomes no. -/
inductive UserChoice where
  | yes
  | no
  | abort
deriving DecidableEq

/-- Errors of the execution engine (src/executor/engine.rs,
ExecutionError). -/
inductive ExecutionError where
  | io (msg : String)
  | userAborted
  | invalidConfiguration (msg : String)
deriving DecidableEq

/-- The filesystem mutation primitives the execution engine invokes,
over an abstract filesystem state: each returns an optional error
message and the successor state. -/
structure FsOps (σ : Type) where
  isDir : σ → FsPath → Bool
  removeDirAll : σ → FsPath → Option String × σ
  removeFile : σ → FsPath → Option String × σ
  createDirAll : σ → FsPath → Option String × σ
  rename : σ → FsPath → FsPath → Option String × σ
  trashDelete : σ → FsPath → Option String × σ

/-- Mutable world of an execution: the filesystem state, a clock whose
ticks model SystemTime::now calls, and the stream of interactive
responses. -/
structure World (σ : Type) where
  fs : σ
  clock : Nat
  prompts : List UserChoice
deriving DecidableEq

/-- Reads the clock and advances it (model of SystemTime::now). -/
def tick {σ : Type} (w : World σ) : Nat × World σ :=
  (w.clock, { w with clock := w.clock + 1 })

/-- Model of ExecutionEngine::prompt_user (src/executor/engine.rs,
lines 338-361): consumes one response; end of input reads as no. -/
def promptUser {σ : Type} (w : World σ) : UserChoice × World σ :=
  match w.prompts with
  | [] => (UserChoice.no, w)
  | c :: rest => (c, { w with prompts := rest })

/-- Model of ExecutionEngine::delete_path (src/executor/engine.rs,
lines 311-317). -/
def deletePath {σ : Type} (ops : FsOps σ) (s : σ) (p : FsPath) : Option String × σ :=
  if ops.isDir s p then ops.removeDirAll s p else ops.removeFile s p

/-- Model of ExecutionEngine::move_to_backup (src/executor/engine.rs,
lines 319-331). -/
def moveToBackup {σ : Type} (ops : FsOps σ) (cfg : ExecutionConfig)
    (s : σ) (full : FsPath) (e : CleanupEntry) : Option String × σ :=
  let dest := cfg.backupDir.getD [] ++ e.path
  let parentStep := if dest == ([] : FsPath) then ((none : Option String), s)
    else ops.createDirAll s dest.dropLast
  match parentStep with
  | (some er, s1) => (some er, s1)
  | (none, s1) => ops.rename s1 full dest

/-- Model of ExecutionEngine::execute_single (src/executor/engine.rs,
lines 259-309). -/
def executeSingle {σ : Type} (ops : FsOps σ) (cfg : ExecutionConfig)
    (full : FsPath) (e : CleanupEntry) (w : World σ) : OperationResult × World σ :=
  let t := tick w
  let ts := t.1
  let w1 := t.2
  if cfg.mode == ExecutionMode.DryRun then
    (⟨full, OperationAction.Delete, OperationStatus.DryRun, some e.size, none, ts⟩, w1)
  else
    let action :=
      if cfg.useRecycleBin then OperationAction.MoveToRecycleBin
      else if cfg.backupDir.isSome then OperationAction.MoveToBackup
      else OperationAction.Delete
    let res :=
      match action with
      | OperationAction.Delete => deletePath ops w1.fs full
      | OperationAction.MoveToBackup => moveToBackup ops cfg w1.fs full e
      | OperationAction.MoveToRecycleBin => ops.trashDelete w1.fs full
      | OperationAction.Skip => ((none : Option String), w1.fs)
    match res with
    | (none, fs') =>
      (⟨full, action, OperationStatus.Success, some e.size, none, ts⟩, { w1 with fs := fs' })
    | (some er, fs') =>
      (⟨full, action, OperationStatus.Failed, none, some er, ts⟩, { w1 with fs := fs' })

/-- The record pushed for an interactively skipped entry
(src/executor/engine.rs, lines 155-163). -/
def skipRecord (full : FsPath) (ts : Nat) : OperationResult :=
  ⟨full, OperationAction.Skip, OperationStatus.Skipped, none, none, ts⟩

/-- Entry loop of ExecutionEngine::execute_sequential
(src/executor/engine.rs, lines 145-183), over the Delete-filtered
entries: interactive prompting, then the operation, then the
entry-granular fail-fast check that pushes the failed record and
stops. -/
def execSeqLoop {σ : Type} (ops : FsOps σ) (cfg : ExecutionConfig) (base : FsPath) :
    List CleanupEntry → World σ → List OperationResult →
    (Except ExecutionError (List OperationResult)) × World σ
  | [], w, acc => (Except.ok acc, w)
  | e :: rest, w, acc =>
    let full := base ++ e.path
    if cfg.mode == ExecutionMode.Interactive then
      match promptUser w with
      | (UserChoice.yes, w1) =>
        let pr := executeSingle ops cfg full e w1
        if cfg.failFast && pr.1.status == OperationStatus.Failed then
          (Except.ok (acc ++ [pr.1]), pr.2)
        else execSeqLoop ops cfg base rest pr.2 (acc ++ [pr.1])
      | (UserChoice.no, w1) =>
        let t := tick w1
        execSeqLoop ops cfg base rest t.2 (acc ++ [skipRecord full t.1])
      | (UserChoice.abort, w1) => (Except.error ExecutionError.userAborted, w1)
    else
      let pr := executeSingle ops cfg full e w
      if cfg.failFast && pr.1.status == OperationStatus.Failed then
        (Except.ok (acc ++ [pr.1]), pr.2)
      else execSeqLoop ops cfg base rest pr.2 (acc ++ [pr.1])

/-- Sum of status counts and bytes freed (model of
ExecutionEngine::compute_summary, src/executor/engine.rs, lines
363-391). -/
def computeSummary (l : List OperationResult) (dur : Nat) : ExecutionSummary :=
  ⟨l.length,
   (l.filter (fun o => o.status == OperationStatus.Success
      || o.status == OperationStatus.DryRun)).length,
   (l.filter (fun o => o.status == OperationStatus.Failed)).length,
   (l.filter (fun o => o.status == OperationStatus.Skipped)).length,
   (l.filterMap (fun o => o.sizeFreed)).sum,
   dur⟩

/-- Model of ExecutionEngine::execute_sequential
(src/executor/engine.rs, lines 132-192). -/
def executeSequential {σ : Type} (ops : FsOps σ) (cfg : ExecutionConfig)
    (w : World σ) (plan : CleanupPlan) :
    (Except ExecutionError ExecutionResult) × World σ :=
  let startClock := w.clock
  let toProcess := plan.entries.filter (fun e => e.action == CleanupAction.Delete)
  match execSeqLoop ops cfg plan.basePath toProcess w [] with
  | (Except.ok opsList, w') =>
    (Except.ok ⟨opsList, computeSummary opsList (w'.clock - startClock)⟩, w')
  | (Except.error er, w') => (Except.error er, w')

/-- Model of slice::chunks as used for parallel batches; a zero batch
size is normalized to one (the source would panic there). -/
def listChunks {α : Type} (n : Nat) (l : List α) : List (List α) :=
  match l with
  | [] => []
  | a :: rest =>
    (a :: rest).take (max n 1) :: listChunks n ((a :: rest).drop (max n 1))
termination_by l.length
decreasing_by simp [List.length_drop]

/-- One parallel batch (src/executor/engine.rs, lines 221-229): rayon's
indexed collect returns the records in input order; the disjoint
per-entry effects are serialized in the model. -/
def runBatch {σ : Type} (ops : FsOps σ) (cfg : ExecutionConfig) (base : FsPath) :
    List CleanupEntry → World σ → List OperationResult × World σ
  | [], w => ([], w)
  | e :: rest, w =>
    let pr := executeSingle ops cfg (base ++ e.path) e w
    let out := runBatch ops cfg base rest pr.2
    (pr.1 :: out.1, out.2)

/-- Batch loop of ExecutionEngine::execute_parallel
(src/executor/engine.rs, lines 214-245): the abort flag is consulted
only at batch boundaries and set after a batch when fail-fast has
observed a failure. -/
def execParLoop {σ : Type} (ops : FsOps σ) (cfg : ExecutionConfig) (base : FsPath) :
    List (List CleanupEntry) → World σ → List OperationResult → Bool →
    List OperationResult × World σ
  | [], w, results, _ => (results, w)
  | batch :: batches, w, results, shouldAbort =>
    if shouldAbort then (results, w)
    else
      let br := runBatch ops cfg base batch w
      let results' := results ++ br.1
      let abort' := cfg.failFast
        && results'.any (fun r => r.status == OperationStatus.Failed)
      execParLoop ops cfg base batches br.2 results' abort'

/-- Model of ExecutionEngine::execute_parallel (src/executor/engine.rs,
lines 195-257). -/
def executeParallel {σ : Type} (ops : FsOps σ) (cfg : ExecutionConfig)
    (w : World σ) (plan : CleanupPlan) :
    (Except ExecutionError ExecutionResult) × World σ :=
  let startClock := w.clock
  let toProcess := plan.entries.filter (fun e => e.action == CleanupAction.Delete)
  let out := execParLoop ops cfg plan.basePath (listChunks cfg.batchSize toProcess) w [] false
  (Except.ok ⟨out.1, computeSummary out.1 (out.2.clock - startClock)⟩, out.2)

/-- Model of ExecutionEngine::execute (src/executor/engine.rs, lines
115-129): the parallel-with-interactive configuration is rejected
before anything happens. -/
def execute {σ : Type} (ops : FsOps σ) (cfg : ExecutionConfig)
    (w : World σ) (plan : CleanupPlan) :
    (Except ExecutionError ExecutionResult) × World σ :=
  if cfg.parallel && cfg.mode == ExecutionMode.Interactive then
    (Except.error (ExecutionError.invalidConfiguration
      "Parallel execution is not compatible with Interactive mode"), w)
  else if cfg.parallel then executeParallel ops cfg w plan
  else executeSequential ops cfg w plan

/-! Helper lemmas. -/

theorem filter_delete_idem (l : List CleanupEntry) :
    (l.filter (fun e => e.action == CleanupAction.Delete)).filter
        (fun e => e.action == CleanupAction.Delete)
      = l.filter (fun e => e.action == CleanupAction.Delete) := by
  rw [List.filter_filter]
  apply List.filter_congr
  intro x _
  simp

theorem listChunks_nil {α : Type} (n : Nat) : listChunks n ([] : List α) = [] := by
  rw [listChunks]

/-! Claim theorems. -/

/-- C4: for every verification result, is_safe_to_execute returns true
iff both the drifted list and the missing list are empty, and the
permission_errors list has no influence on the outcome. -/
theorem c4_safe_iff_no_drift_no_missing (r : VerificationResult) :
    (is_safe_to_execute r = true ↔ r.drifted = [] ∧ r.missing = [])
    ∧ (∀ pe : List FsPath,
        is_safe_to_execute { r with permissionErrors := pe } = is_safe_to_execute r) := by
  constructor
  · simp [is_safe_to_execute, has_drift, List.isEmpty_iff]
  · intro pe
    rfl

/-- C9: requesting parallel execution together with Interactive mode is
rejected by execute as an InvalidConfiguration error with the world
untouched: zero operation records, no filesystem side effect. -/
theorem c9_parallel_interactive_rejected {σ : Type} (ops : FsOps σ)
    (cfg : ExecutionConfig) (w : World σ) (plan : CleanupPlan)
    (hpar : cfg.parallel = true) (hmode : cfg.mode = ExecutionMode.Interactive) :
    execute ops cfg w plan =
      (Except.error (ExecutionError.invalidConfiguration
        "Parallel execution is not compatible with Interactive mode"), w) := by
  simp [execute, hpar, hmode]

/-- Trivial filesystem-operation oracle over the unit state, used to
instantiate executor theorems. -/
def unitFsOps : FsOps Unit :=
  ⟨fun _ _ => false, fun s _ => (none, s), fun s _ => (none, s), fun s _ => (none, s),
   fun s _ _ => (none, s), fun s _ => (none, s)⟩

/-- A parallel-plus-interactive configuration. -/
def parIntCfg : ExecutionConfig :=
  ⟨ExecutionMode.Interactive, none, false, false, true, 100⟩

/-- A one-entry Delete plan under base path /b. -/
def oneDeletePlan : CleanupPlan :=
  ⟨"0.1.0", 0, ["", "b"], [⟨["x"], 7, "t", CleanupAction.Delete, "r", "rr"⟩]⟩

/-- Witness for C9 at a concrete configuration, world, and plan. -/
theorem c9_parallel_interactive_rejected_witness :
    parIntCfg.parallel = true ∧ parIntCfg.mode = ExecutionMode.Interactive ∧
    execute unitFsOps parIntCfg (⟨(), 0, []⟩ : World Unit) oneDeletePlan =
      (Except.error (ExecutionError.invalidConfiguration
        "Parallel execution is not compatible with Interactive mode"),
       (⟨(), 0, []⟩ : World Unit)) :=
  ⟨rfl, rfl,
   c9_parallel_interactive_rejected unitFsOps parIntCfg ⟨(), 0, []⟩ oneDeletePlan rfl rfl⟩

/-- C2: execute acts only on Delete-disposition entries: the whole
execution outcome is invariant under removing every non-Delete entry
from the plan, and a plan with no Delete entries yields zero operation
records (no skips) and leaves the filesystem state untouched, in both
sequential and parallel mode. -/
theorem c2_only_delete_acted_on {σ : Type} (ops : FsOps σ) (cfg : ExecutionConfig)
    (w : World σ) (plan : CleanupPlan) :
    execute ops cfg w plan
      = execute ops cfg w
          { plan with entries := plan.entries.filter (fun e => e.action == CleanupAction.Delete) }
    ∧ ((∀ e ∈ plan.entries, e.action ≠ CleanupAction.Delete) →
        (∀ res, (execute ops cfg w plan).1 = Except.ok res →
            res.operations = [] ∧ res.summary.totalOperations = 0 ∧ res.summary.skipped = 0)
        ∧ (execute ops cfg w plan).2.fs = w.fs) := by
  have hfi := filter_delete_idem plan.entries
  constructor
  · unfold execute executeSequential executeParallel
    simp only [hfi]
  · intro h
    have hfil : plan.entries.filter (fun e => e.action == CleanupAction.Delete) = [] := by
      rw [List.filter_eq_nil_iff]
      intro a ha
      simpa using h a ha
    unfold execute
    by_cases hpi : (cfg.parallel && cfg.mode == ExecutionMode.Interactive) = true
    · simp [hpi]
    · by_cases hp : cfg.parallel = true
      · simp only [hpi, hp, if_true, if_false, Bool.false_eq_true]
        unfold executeParallel
        simp [hfil, listChunks_nil, execParLoop, computeSummary]
        split <;> simp
      · simp only [hpi, hp, if_false, Bool.false_eq_true]
        unfold executeSequential
        simp [hfil, execSeqLoop, computeSummary]

/-- A plan whose entries are only Keep and Review. -/
def keepReviewPlan : CleanupPlan :=
  ⟨"0.1.0", 0, ["", "b"],
   [⟨["x"], 7, "t", CleanupAction.Keep, "r", "rr"⟩,
    ⟨["y"], 8, "t", CleanupAction.Review, "r", "rr"⟩]⟩

/-- A plain batch configuration. -/
def batchCfg : ExecutionConfig :=
  ⟨ExecutionMode.Batch, none, false, false, false, 100⟩

/-- Witness for C2 at a concrete Keep/Review-only plan. -/
theorem c2_only_delete_acted_on_witness :
    (∀ e ∈ keepReviewPlan.entries, e.action ≠ CleanupAction.Delete) ∧
    ((∀ res, (execute unitFsOps batchCfg (⟨(), 0, []⟩ : World Unit) keepReviewPlan).1
          = Except.ok res →
        res.operations = [] ∧ res.summary.totalOperations = 0 ∧ res.summary.skipped = 0)
      ∧ (execute unitFsOps batchCfg (⟨(), 0, []⟩ : World Unit) keepReviewPlan).2.fs = ()) :=
  ⟨by decide,
   (c2_only_delete_acted_on unitFsOps batchCfg ⟨(), 0, []⟩ keepReviewPlan).2 (by decide)⟩

/-! Detection-engine lemmas shared by C1 and C6. -/

theorem findFirstDetection_entry (fs : FileSystem) (ctx : ScanContext) (e : FileEntry) :
    ∀ rules d, findFirstDetection fs ctx e rules = some d → d.entry = e := by
  intro rules
  induction rules with
  | nil => intro d h; cases h
  | cons r rest ih =>
    intro d h
    unfold findFirstDetection at h
    by_cases hf : r.shouldFlag e ctx = true
    · rw [if_pos hf] at h
      by_cases hb : (r.name == "build_artifact" && is_repo_root fs e) = true
      · rw [if_pos hb] at h
        exact ih d h
      · rw [if_neg hb] at h
        cases h
        rfl
    · rw [if_neg hf] at h
      exact ih d h

theorem analyzeEntry_entry (fs : FileSystem) (rules : List DetectionRule)
    (ctx : ScanContext) (x : FileEntry) (d : DetectionResult) :
    analyzeEntry fs rules ctx x = some d → d.entry = x := by
  intro h
  unfold analyzeEntry at h
  by_cases hp : (is_protected_source fs x || is_repo_root fs x || is_protected_manifest fs x) = true
  · rw [if_pos hp] at h; cases h
  · rw [if_neg hp] at h
    exact findFirstDetection_entry fs ctx x rules d h

theorem findFirstDetection_eq_find (fs : FileSystem) (ctx : ScanContext) (e : FileEntry)
    (hrr : is_repo_root fs e = false) :
    ∀ rules, findFirstDetection fs ctx e rules
      = (rules.find? (fun ru => ru.shouldFlag e ctx)).map (fun r => ⟨e, r.name, r.reason⟩) := by
  intro rules
  induction rules with
  | nil => rfl
  | cons r rest ih =>
    unfold findFirstDetection
    by_cases hf : r.shouldFlag e ctx = true
    · simp [hf, hrr, List.find?]
    · simp [hf, List.find?, ih]

theorem analyze_no_hit_of_not_mem (fs : FileSystem) (rules : List DetectionRule)
    (ctx : ScanContext) (e : FileEntry) :
    ∀ entries, e ∉ entries →
      (analyze fs rules entries ctx).filter (fun d => d.entry == e) = [] := by
  intro entries
  induction entries with
  | nil => intro _; rfl
  | cons x rest ih =>
    intro hne
    have hx : x ≠ e := fun h => hne (h ▸ List.mem_cons_self x rest)
    have hrest : e ∉ rest := fun h => hne (List.mem_cons_of_mem x h)
    unfold analyze
    rw [List.filterMap_cons]
    cases hax : analyzeEntry fs rules ctx x with
    | none => exact ih hrest
    | some d =>
      have hde : d.entry = x := analyzeEntry_entry fs rules ctx x d hax
      rw [List.filter_cons]
      have : (d.entry == e) = false := by
        rw [hde]
        exact beq_false_of_ne hx
      rw [this]
      exact ih hrest

/-- C6 counterexample inputs: a protected source file matched by two
always-true rules. -/
def fsSourceFile : FileSystem :=
  ⟨fun p => p == ["a.rs"], fun _ => false, fun _ => false⟩

/-- A source-file entry. -/
def srcFileEntry : FileEntry := ⟨["a.rs"], 5, 0, EntryType.File, none⟩

/-- A rule that flags everything, named one. -/
def alwaysRuleOne : DetectionRule := ⟨"one", fun _ _ => true, "r1"⟩

/-- A rule that flags everything, named two. -/
def alwaysRuleTwo : DetectionRule := ⟨"two", fun _ _ => true, "r2"⟩

/-- C6 counterexample: on an entry excluded by the safety policy (a
recognized source file), two rules match yet analyze produces zero
detections, not exactly one. -/
theorem c6_protected_entry_no_detection_cx :
    2 ≤ ([alwaysRuleOne, alwaysRuleTwo].filter
          (fun ru => ru.shouldFlag srcFileEntry ⟨⟩)).length
    ∧ analyze fsSourceFile [alwaysRuleOne, alwaysRuleTwo] [srcFileEntry] ⟨⟩ = [] :=
  ⟨by decide, by decide⟩

/-- C6 (amended): for an entry not excluded by the safety policy,
occurring once in the entry list, on which more than one rule matches,
analyze produces exactly one detection for it, carrying the name and
reason of the earliest-indexed matching rule. -/
theorem c6_first_match_wins_amended (fs : FileSystem) (rules : List DetectionRule)
    (entries : List FileEntry) (ctx : ScanContext) (e : FileEntry) (r : DetectionRule)
    (hps : is_protected_source fs e = false) (hrr : is_repo_root fs e = false)
    (hpm : is_protected_manifest fs e = false)
    (hcount : entries.count e = 1)
    (hfind : rules.find? (fun ru => ru.shouldFlag e ctx) = some r)
    (hmulti : 2 ≤ (rules.filter (fun ru => ru.shouldFlag e ctx)).length) :
    (analyze fs rules entries ctx).filter (fun d => d.entry == e)
      = [⟨e, r.name, r.reason⟩] := by
  have hae : analyzeEntry fs rules ctx e = some ⟨e, r.name, r.reason⟩ := by
    unfold analyzeEntry
    rw [hps, hrr, hpm]
    simp only [Bool.or_self, Bool.or_false, Bool.false_eq_true, if_false]
    rw [findFirstDetection_eq_find fs ctx e hrr rules, hfind]
    rfl
  clear hfind hmulti
  induction entries with
  | nil => simp at hcount
  | cons x rest ih =>
    rw [List.count_cons] at hcount
    by_cases hx : x = e
    · subst hx
      have h1 : (x == x) = true := by simp
      rw [h1] at hcount
      simp only [if_true] at hcount
      have hnm : x ∉ rest := by
        intro hmem
        have := List.count_pos_iff.mpr hmem
        omega
      unfold analyze
      rw [List.filterMap_cons, hae, List.filter_cons]
      have hkeep : ((⟨x, r.name, r.reason⟩ : DetectionResult).entry == x) = true := by simp
      rw [hkeep]
      have h0 := analyze_no_hit_of_not_mem fs rules ctx x rest hnm
      unfold analyze at h0
      simp [h0]
    · have hne : (x == e) = false := beq_false_of_ne hx
      rw [hne] at hcount
      simp only [if_false, Bool.false_eq_true] at hcount
      have hrest := ih (by omega)
      unfold analyze
      rw [List.filterMap_cons]
      cases hax : analyzeEntry fs rules ctx x with
      | none =>
        unfold analyze at hrest
        exact hrest
      | some d =>
        have hde : d.entry = x := analyzeEntry_entry fs rules ctx x d hax
        rw [List.filter_cons]
        have hdrop : (d.entry == e) = false := by
          rw [hde]; exact beq_false_of_ne hx
        rw [hdrop]
        unfold analyze at hrest
        exact hrest

/-- Oracle with no filesystem content at all. -/
def fsAllFalse : FileSystem := ⟨fun _ => false, fun _ => false, fun _ => false⟩

/-- An unprotected plain file entry. -/
def plainFileEntry : FileEntry := ⟨["", "b", "big.bin"], 5, 0, EntryType.File, none⟩

/-- Witness for C6 (amended) at a concrete entry matched by two rules. -/
theorem c6_first_match_wins_witness :
    (analyze fsAllFalse [alwaysRuleOne, alwaysRuleTwo] [plainFileEntry] ⟨⟩).filter
        (fun d => d.entry == plainFileEntry)
      = [⟨plainFileEntry, "one", "r1"⟩] :=
  c6_first_match_wins_amended fsAllFalse [alwaysRuleOne, alwaysRuleTwo] [plainFileEntry]
    ⟨⟩ plainFileEntry alwaysRuleOne (by decide) (by decide) (by decide) (by decide)
    rfl (by decide)

/-- Marker names of the amended C1: version-control directories and
package manifests recognized by is_repo_root or
is_protected_manifest. -/
def projectMarkerNames : List String :=
  [".git", ".hg", ".svn", "package.json", "Cargo.toml", "pyproject.toml"]

theorem is_repo_root_true_of_marker (fs : FileSystem) (e : FileEntry)
    (hdir : e.entryType = EntryType.Directory)
    (hjunk : is_known_junk_dir e.path = false) (c : String)
    (hc : c ∈ repoRootCandidates) (hex : fs.fsExists (e.path ++ [c]) = true) :
    is_repo_root fs e = true := by
  unfold is_repo_root
  rw [if_neg (by simp [hdir]), hjunk]
  simp only [Bool.false_eq_true, if_false]
  by_cases hdot : e.path = ["."]
  · rw [if_pos hdot]
  · rw [if_neg hdot, List.any_eq_true]
    exact ⟨c, hc, hex⟩

theorem is_protected_manifest_true_of_marker (fs : FileSystem) (e : FileEntry)
    (hdir : e.entryType = EntryType.Directory)
    (hjunk : is_known_junk_dir e.path = false) (c : String)
    (hc : c ∈ manifestNames) (hex : fs.fsExists (e.path ++ [c]) = true) :
    is_protected_manifest fs e = true := by
  unfold is_protected_manifest
  rw [if_neg (by simp [hdir]), hjunk]
  simp only [Bool.false_eq_true, if_false]
  rw [List.any_eq_true]
  exact ⟨c, hc, hex⟩

/-- C1 counterexample inputs: a directory named build that itself
directly contains package.json. -/
def fsJunkRoot : FileSystem :=
  ⟨fun _ => false, fun p => p == ["", "root", "build"],
   fun p => p == ["", "root", "build", "package.json"]⟩

/-- The junk-named, marker-containing directory entry. -/
def junkNamedRootDir : FileEntry :=
  ⟨["", "root", "build"], 0, 0, EntryType.Directory, none⟩

/-- C1 counterexample: a directory that directly contains the
package-manifest marker package.json, but whose base name build is a
known generated-output name, is still flagged by analyze under the
default rules — the claim's universal protection fails here. -/
theorem c1_marker_in_junk_named_dir_flagged_cx :
    junkNamedRootDir.entryType = EntryType.Directory
    ∧ fsJunkRoot.fsExists (junkNamedRootDir.path ++ ["package.json"]) = true
    ∧ analyze fsJunkRoot defaultRules [junkNamedRootDir] ⟨⟩
        = [⟨junkNamedRootDir, "build_artifact", "Common build artifact directory"⟩] :=
  ⟨rfl, by decide, by decide⟩

/-- C1 (amended): a directory entry that directly contains a
project-root marker is never flagged by analyze, unless its own base
name is one of the known generated-output directory names; and a
build-artifact-named directory that does not itself contain such a
marker is still flagged under the default rules even when it sits
beneath a protected root. -/
theorem c1_root_marker_protection_amended :
    (∀ (fs : FileSystem) (rules : List DetectionRule) (ctx : ScanContext)
        (e : FileEntry) (entries : List FileEntry),
      e.entryType = EntryType.Directory →
      (∃ c ∈ projectMarkerNames, fs.fsExists (e.path ++ [c]) = true) →
      is_known_junk_dir e.path = false →
      ∀ d ∈ analyze fs rules entries ctx, d.entry ≠ e)
    ∧ (∀ (fs : FileSystem) (ctx : ScanContext) (e : FileEntry) (name : String),
      e.entryType = EntryType.Directory →
      fileName e.path = some name →
      name ∈ buildArtifactPatterns →
      (∀ c ∈ projectMarkerNames, fs.fsExists (e.path ++ [c]) = false) →
      fs.isFile e.path = false →
      e.size < 100 * 1048576 →
      analyze fs defaultRules [e] ctx
        = [⟨e, "build_artifact", "Common build artifact directory"⟩]) := by
  constructor
  · intro fs rules ctx e entries hdir hmarker hjunk d hd hde
    obtain ⟨c, hc, hex⟩ := hmarker
    have hone : is_repo_root fs e = true ∨ is_protected_manifest fs e = true := by
      fin_cases hc
      · exact Or.inl (is_repo_root_true_of_marker fs e hdir hjunk ".git" (by decide) hex)
      · exact Or.inl (is_repo_root_true_of_marker fs e hdir hjunk ".hg" (by decide) hex)
      · exact Or.inl (is_repo_root_true_of_marker fs e hdir hjunk ".svn" (by decide) hex)
      · exact Or.inl (is_repo_root_true_of_marker fs e hdir hjunk "package.json"
          (by decide) hex)
      · exact Or.inl (is_repo_root_true_of_marker fs e hdir hjunk "Cargo.toml"
          (by decide) hex)
      · exact Or.inr (is_protected_manifest_true_of_marker fs e hdir hjunk
          "pyproject.toml" (by decide) hex)
    have hae : analyzeEntry fs rules ctx e = none := by
      rcases hone with h | h <;> simp [analyzeEntry, h]
    obtain ⟨x, hxmem, hax⟩ := List.mem_filterMap.mp hd
    have hxe : d.entry = x := analyzeEntry_entry fs rules ctx x d hax
    rw [hde] at hxe
    rw [← hxe] at hax
    rw [hae] at hax
    cases hax
  · intro fs ctx e name hdir hfname hpat hnomark hnofile hsize
    have hjunk : is_known_junk_dir e.path = true := by
      unfold is_known_junk_dir
      rw [hfname]
      fin_cases hpat <;> decide
    have hrr : is_repo_root fs e = false := by
      unfold is_repo_root
      rw [if_neg (by simp [hdir]), hjunk]
      simp
    have hpm : is_protected_manifest fs e = false := by
      unfold is_protected_manifest
      rw [if_neg (by simp [hdir]), hjunk]
      simp
    have hps : is_protected_source fs e = false := by
      unfold is_protected_source
      rw [hnofile, hfname]
      have hdirs : asciiLower name ∉ sourceDirs := by
        fin_cases hpat <;> decide
      simp [hdirs]
    have h1 : (sizeThresholdRule (100 * 1048576)).shouldFlag e ctx = false := by
      simp only [sizeThresholdRule, decide_eq_false_iff_not]
      omega
    have h2 : (buildArtifactRule buildArtifactPatterns).shouldFlag e ctx = true := by
      simp only [buildArtifactRule, hdir, hfname, Bool.and_eq_true, beq_self_eq_true,
        true_and, List.any_eq_true]
      exact ⟨name, hpat, by simp [hfname]⟩
    have hae : analyzeEntry fs defaultRules ctx e
        = some ⟨e, "build_artifact", "Common build artifact directory"⟩ := by
      unfold analyzeEntry
      rw [hps, hrr, hpm]
      simp only [Bool.or_self, Bool.or_false, Bool.false_eq_true, if_false]
      unfold defaultRules findFirstDetection
      rw [h1]
      simp only [Bool.false_eq_true, if_false]
      unfold findFirstDetection
      rw [h2]
      simp only [if_true]
      rw [hrr]
      simp [buildArtifactRule]
    simp [analyze, hae]

/-- Filesystem for the C1 witness: /proj contains the marker, the
nested /proj/target does not. -/
def fsProj : FileSystem :=
  ⟨fun _ => false,
   fun p => p == ["", "proj"] || p == ["", "proj", "target"],
   fun p => p == ["", "proj", "Cargo.toml"]⟩

/-- The protected project-root directory entry. -/
def projRootDir : FileEntry := ⟨["", "proj"], 0, 0, EntryType.Directory, none⟩

/-- The nested build-artifact directory entry. -/
def projTargetDir : FileEntry := ⟨["", "proj", "target"], 0, 0, EntryType.Directory, none⟩

/-- Witness for C1 (amended): the marker-containing root is never
reported, while the nested target directory is flagged. -/
theorem c1_root_marker_protection_witness :
    (∀ d ∈ analyze fsProj defaultRules [projRootDir, projTargetDir] ⟨⟩,
        d.entry ≠ projRootDir)
    ∧ analyze fsProj defaultRules [projTargetDir] ⟨⟩
        = [⟨projTargetDir, "build_artifact", "Common build artifact directory"⟩] :=
  ⟨c1_root_marker_protection_amended.1 fsProj defaultRules ⟨⟩ projRootDir
      [projRootDir, projTargetDir] rfl ⟨"Cargo.toml", by decide, by decide⟩ (by decide),
   c1_root_marker_protection_amended.2 fsProj ⟨⟩ projTargetDir "target" rfl rfl
      (by decide) (by decide) (by decide) (by decide)⟩

/-- A successfully read file metadata record. -/
def okWalkMeta : WalkMeta := ⟨MetaKind.file, 5, some 0⟩

/-- A successfully yielded walk entry. -/
def okRaw : RawEntry := ⟨["", "r", "a.txt"], "a.txt", Except.ok okWalkMeta, []⟩

/-- C5 counterexample: for the sequential FileScanner, one failed walk
entry after a perfectly readable one makes the whole scan return an
error — there is no error list and no result with the entry omitted —
and calculate_dir_size aborts the same way on an unreadable
subentry. -/
theorem c5_sequential_scan_aborts_cx :
    seqScan ⟨false, none, false⟩ true [Except.ok okRaw, Except.error "permission denied"]
        = Except.error (SeqScanError.walk "permission denied")
    ∧ calcDirSize [Except.ok okWalkMeta, Except.error "permission denied"]
        = Except.error (SeqScanError.walk "permission denied") :=
  ⟨by decide, by decide⟩

/-- C5 (amended): the parallel scanner collects per-entry failures and
omits the failing entry while never aborting — its output is exactly
the successfully processed entries plus a count of the failures — but
the sequential FileScanner::scan propagates the first walk error after
any clean prefix, aborting the whole scan, and its calculate_dir_size
aborts on the first unreadable subentry. -/
theorem c5_per_entry_error_collection_amended :
    (∀ paths : List PRawEntry,
      (parScanPhase2 paths).1
        = paths.filterMap (fun re =>
            match processEntry re with
            | Except.ok o => o
            | Except.error _ => none)
      ∧ (parScanPhase2 paths).2
        = (paths.filter (fun re =>
            match processEntry re with
            | Except.ok _ => false
            | Except.error _ => true)).length)
    ∧ (∀ (cfg : ScanConfig) (pre : List (Except String RawEntry)) (msg : String)
        (post : List (Except String RawEntry)) (l : List FileEntry),
      scanGo cfg pre = Except.ok l →
      scanGo cfg (pre ++ Except.error msg :: post)
        = Except.error (SeqScanError.walk msg))
    ∧ (∀ (acc : Nat) (pre : List (Except String WalkMeta)) (msg : String)
        (post : List (Except String WalkMeta)) (n : Nat),
      calcDirSizeGo acc pre = Except.ok n →
      calcDirSizeGo acc (pre ++ Except.error msg :: post)
        = Except.error (SeqScanError.walk msg)) := by
  refine ⟨?_, ?_, ?_⟩
  · intro paths
    induction paths with
    | nil => exact ⟨rfl, rfl⟩
    | cons re rest ih =>
      unfold parScanPhase2
      rw [List.filterMap_cons, List.filter_cons]
      cases hp : processEntry re with
      | ok o =>
        cases o with
        | some fe => simp [ih.1, ih.2]
        | none => simp [ih.1, ih.2]
      | error er => simp [ih.1, ih.2]
  · intro cfg pre msg post
    induction pre with
    | nil => intro l _; rfl
    | cons x rest ih =>
      intro l h
      cases x with
      | error m => cases h
      | ok re =>
        simp only [List.cons_append, scanGo] at h ⊢
        by_cases hs : shouldSkip cfg re = true
        · rw [if_pos hs] at h ⊢
          exact ih l h
        · rw [if_neg hs] at h ⊢
          cases hf : toFileEntry re with
          | error er => rw [hf] at h; simp at h
          | ok fe =>
            cases hr : scanGo cfg rest with
            | error er => rw [hf, hr] at h; simp at h
            | ok l' =>
              rw [List.append_eq, ih l' hr]
  · intro acc pre msg post
    induction pre generalizing acc with
    | nil => intro n _; rfl
    | cons x rest ih =>
      intro n h
      cases x with
      | error m => cases h
      | ok md =>
        simp only [List.cons_append, calcDirSizeGo] at h ⊢
        exact ih _ n h

/-- A parallel-scan input with one readable file, one entry whose
metadata call fails, and one readable directory. -/
def pRawInputs : List PRawEntry :=
  [⟨["", "r", "a.txt"], some ⟨MetaKind.file, 5, some 0⟩, none⟩,
   ⟨["", "r", "broken"], none, none⟩,
   ⟨["", "r", "d"], some ⟨MetaKind.dir, 0, some 0⟩,
    some [PNode.mk (some ⟨MetaKind.file, 3, some 0⟩) none]⟩]

/-- Witness for C5 (amended) at concrete inputs: the failing entry is
omitted and counted, the others are kept, and the sequential scan's
abort hypothesis is discharged at a concrete clean prefix. -/
theorem c5_per_entry_error_collection_witness :
    ((parScanPhase2 pRawInputs).1
        = pRawInputs.filterMap (fun re =>
            match processEntry re with
            | Except.ok o => o
            | Except.error _ => none)
      ∧ (parScanPhase2 pRawInputs).2
        = (pRawInputs.filter (fun re =>
            match processEntry re with
            | Except.ok _ => false
            | Except.error _ => true)).length)
    ∧ scanGo ⟨false, none, false⟩ [Except.ok okRaw, Except.error "denied"]
        = Except.error (SeqScanError.walk "denied")
    ∧ calcDirSizeGo 0 [Except.ok okWalkMeta, Except.error "denied"]
        = Except.error (SeqScanError.walk "denied") :=
  ⟨c5_per_entry_error_collection_amended.1 pRawInputs,
   c5_per_entry_error_collection_amended.2.1 ⟨false, none, false⟩ [Except.ok okRaw]
     "denied" [] [⟨["", "r", "a.txt"], 5, 0, EntryType.File, none⟩] (by decide),
   c5_per_entry_error_collection_amended.2.2 0 [Except.ok okWalkMeta] "denied" [] 5
     (by decide)⟩

/-! Planner lemmas for C3. -/

theorem rawLen_append (p s : FsPath) : rawLen (p ++ s) = rawLen p + rawLen s := by
  induction p with
  | nil => simp [rawLen]
  | cons c rest ih =>
    show rawLen (c :: (rest ++ s)) = rawLen (c :: rest) + rawLen s
    simp only [rawLen, ih]
    omega

theorem rawLen_pos (p : FsPath) (h : p ≠ []) : 1 ≤ rawLen p := by
  cases p with
  | nil => exact absurd rfl h
  | cons c rest =>
    simp only [rawLen]
    omega

theorem startsWithPath_exists {c p : FsPath} (h : startsWithPath c p = true) :
    ∃ s, c = p ++ s := by
  induction p generalizing c with
  | nil => exact ⟨c, rfl⟩
  | cons b bs ih =>
    cases c with
    | nil => cases h
    | cons a as =>
      unfold startsWithPath at h
      rw [Bool.and_eq_true] at h
      obtain ⟨h1, h2⟩ := h
      obtain ⟨s, hs⟩ := ih h2
      refine ⟨s, ?_⟩
      rw [beq_iff_eq] at h1
      rw [h1, List.cons_append, ← hs]

theorem pathOsLen_lt_of_strict (parent child : FsPath) (hne : parent ≠ [])
    (hsw : startsWithPath child parent = true) (hneq : child ≠ parent) :
    pathOsLen parent < pathOsLen child := by
  obtain ⟨s, rfl⟩ := startsWithPath_exists hsw
  have hs : s ≠ [] := by
    intro h
    rw [h, List.append_nil] at hneq
    exact hneq rfl
  have h1 := rawLen_pos parent hne
  have h2 := rawLen_pos s hs
  unfold pathOsLen
  rw [rawLen_append]
  omega

/-- The prune invariant of a kept list: no kept entry's path is a
strict descendant of a kept Delete-directory's path. -/
def keptOk (kept : List (DetectionResult × CleanupAction)) : Prop :=
  ∀ pr ∈ kept, pr.2 = CleanupAction.Delete →
    pr.1.entry.entryType = EntryType.Directory →
    ∀ qr ∈ kept,
      ¬ (startsWithPath qr.1.entry.path pr.1.entry.path = true
         ∧ qr.1.entry.path ≠ pr.1.entry.path)

theorem genFold_inv (fs : FileSystem) :
    ∀ (l : List DetectionResult) (st : GenState),
      List.Pairwise detLe l →
      (∀ d ∈ l, d.entry.path ≠ []) →
      (∀ d ∈ l, ∀ pr ∈ st.kept, pathOsLen pr.1.entry.path ≤ pathOsLen d.entry.path) →
      (∀ pr ∈ st.kept, pr.2 = CleanupAction.Delete →
        pr.1.entry.entryType = EntryType.Directory → pr.1.entry.path ∈ st.deletedPaths) →
      keptOk st.kept →
      keptOk ((l.foldl (genStep fs) st).kept) := by
  intro l
  induction l with
  | nil =>
    intro st _ _ _ _ hok
    exact hok
  | cons d rest ih =>
    intro st hpw hwf hle hdel hok
    rw [List.foldl_cons]
    have hpwd := (List.pairwise_cons.mp hpw).1
    have hpw' := (List.pairwise_cons.mp hpw).2
    by_cases hskip : (st.deletedPaths.any (fun dp =>
        startsWithPath d.entry.path dp && !(d.entry.path == dp))) = true
    · have hst : genStep fs st d = st := by
        unfold genStep
        rw [if_pos hskip]
      rw [hst]
      exact ih st hpw' (fun d' hd' => hwf d' (List.mem_cons_of_mem d hd'))
        (fun d' hd' => hle d' (List.mem_cons_of_mem d hd')) hdel hok
    · have hst : genStep fs st d =
          ⟨(if d.entry.entryType == EntryType.Directory
              && (if is_protected_path fs d.entry.path then CleanupAction.Review
                  else default_action_for_rule d.ruleName) == CleanupAction.Delete then
              st.deletedPaths ++ [d.entry.path]
            else st.deletedPaths),
           st.kept ++ [(d, (if is_protected_path fs d.entry.path then CleanupAction.Review
                  else default_action_for_rule d.ruleName))]⟩ := by
        unfold genStep
        rw [if_neg hskip]
      set action := (if is_protected_path fs d.entry.path then CleanupAction.Review
        else default_action_for_rule d.ruleName) with haction
      rw [hst]
      apply ih _ hpw' (fun d' hd' => hwf d' (List.mem_cons_of_mem d hd'))
      · intro d' hd' pr hpr
        rcases List.mem_append.mp hpr with hold | hnew
        · exact hle d' (List.mem_cons_of_mem d hd') pr hold
        · rw [List.mem_singleton.mp hnew]
          exact hpwd d' hd'
      · intro pr hpr hdelete hdir
        rcases List.mem_append.mp hpr with hold | hnew
        · have h0 := hdel pr hold hdelete hdir
          by_cases hc : (d.entry.entryType == EntryType.Directory
              && action == CleanupAction.Delete) = true
          · rw [if_pos hc]
            exact List.mem_append_left _ h0
          · rw [if_neg hc]
            exact h0
        · have hpr' : pr = (d, action) := List.mem_singleton.mp hnew
          have hc : (d.entry.entryType == EntryType.Directory
              && action == CleanupAction.Delete) = true := by
            have hd1 : d.entry.entryType = EntryType.Directory := by
              rw [hpr'] at hdir
              exact hdir
            have hd2 : action = CleanupAction.Delete := by
              rw [hpr'] at hdelete
              exact hdelete
            simp [hd1, hd2]
          rw [if_pos hc, hpr']
          exact List.mem_append_right _ (List.mem_singleton.mpr rfl)
      · intro pr hpr hdelete hdir qr hqr hcontra
        obtain ⟨hsw, hneq⟩ := hcontra
        rcases List.mem_append.mp hpr with hprold | hprnew
        · rcases List.mem_append.mp hqr with hqrold | hqrnew
          · exact hok pr hprold hdelete hdir qr hqrold ⟨hsw, hneq⟩
          · have hqr' : qr = (d, action) := List.mem_singleton.mp hqrnew
            have hmem := hdel pr hprold hdelete hdir
            apply hskip
            rw [List.any_eq_true]
            refine ⟨pr.1.entry.path, hmem, ?_⟩
            rw [Bool.and_eq_true]
            constructor
            · rw [hqr'] at hsw
              exact hsw
            · rw [hqr'] at hneq
              simpa using hneq
        · have hpr' : pr = (d, action) := List.mem_singleton.mp hprnew
          rcases List.mem_append.mp hqr with hqrold | hqrnew
          · have hq := hle d (List.mem_cons_self d rest) qr hqrold
            have hdne : d.entry.path ≠ [] := hwf d (List.mem_cons_self d rest)
            rw [hpr'] at hsw hneq
            have hlt := pathOsLen_lt_of_strict d.entry.path qr.1.entry.path hdne hsw hneq
            omega
          · have hqr' : qr = (d, action) := List.mem_singleton.mp hqrnew
            rw [hpr', hqr'] at hneq
            exact hneq rfl

/-- C3: in the generated plan, when a kept detection is a directory
assigned Delete, no other kept detection's path is a strict descendant
of its path — and the plan's entry list is exactly the image of the
kept detections, so no strict descendant appears anywhere in the plan.
Paths of detections are nonempty, as every scanned path is. -/
theorem c3_no_descendant_of_deleted_dir (fs : FileSystem) (fmt : Int → String)
    (now : Int) (base : FsPath) (dets : List DetectionResult)
    (hwf : ∀ d ∈ dets, d.entry.path ≠ []) :
    (generate fs fmt now base dets).entries
        = (generateKept fs dets).map (toCleanupEntry fmt base)
    ∧ ∀ pr ∈ generateKept fs dets, pr.2 = CleanupAction.Delete →
        pr.1.entry.entryType = EntryType.Directory →
        ∀ qr ∈ generateKept fs dets,
          ¬ (startsWithPath qr.1.entry.path pr.1.entry.path = true
             ∧ qr.1.entry.path ≠ pr.1.entry.path) := by
  constructor
  · rfl
  · have hsorted : List.Pairwise detLe (sortDetections dets) :=
      List.sorted_insertionSort detLe dets
    have hsub : sortDetections dets ⊆ dets :=
      (List.perm_insertionSort detLe dets).subset
    exact genFold_inv fs (sortDetections dets) ⟨[], []⟩ hsorted
      (fun d hd => hwf d (hsub hd))
      (fun _ _ _ hpr => absurd hpr (List.not_mem_nil _))
      (fun _ hpr => absurd hpr (List.not_mem_nil _))
      (fun _ hpr => absurd hpr (List.not_mem_nil _))

/-- Concrete detections for the C3 witness: a Delete directory, its
descendant, and an unrelated large file. -/
def c3Dets : List DetectionResult :=
  [⟨⟨["", "a", "target", "deep"], 5, 0, EntryType.Directory, none⟩, "build_artifact", "r"⟩,
   ⟨⟨["", "a", "target"], 10, 0, EntryType.Directory, none⟩, "build_artifact", "r"⟩,
   ⟨⟨["", "a", "big.bin"], 999, 0, EntryType.File, none⟩, "large_file", "r"⟩]

/-- Witness for C3 at concrete detections. -/
theorem c3_no_descendant_of_deleted_dir_witness :
    (∀ d ∈ c3Dets, d.entry.path ≠ []) ∧
    ((generate fsAllFalse (fun _ => "t") 0 ["", "a"] c3Dets).entries
        = (generateKept fsAllFalse c3Dets).map (toCleanupEntry (fun _ => "t") ["", "a"])
      ∧ ∀ pr ∈ generateKept fsAllFalse c3Dets, pr.2 = CleanupAction.Delete →
          pr.1.entry.entryType = EntryType.Directory →
          ∀ qr ∈ generateKept fsAllFalse c3Dets,
            ¬ (startsWithPath qr.1.entry.path pr.1.entry.path = true
               ∧ qr.1.entry.path ≠ pr.1.entry.path)) :=
  ⟨by decide,
   c3_no_descendant_of_deleted_dir fsAllFalse (fun _ => "t") 0 ["", "a"] c3Dets (by decide)⟩

/-! Executor lemmas for C7. -/

theorem filter_take_filter (p : CleanupEntry → Bool) (l : List CleanupEntry) (n : Nat) :
    ((l.filter p).take n).filter p = (l.filter p).take n := by
  apply List.filter_eq_self.mpr
  intro a ha
  exact List.of_mem_filter (List.take_subset n (l.filter p) ha)

theorem execSeqLoop_failfast {σ : Type} (ops : FsOps σ) (cfg : ExecutionConfig)
    (base : FsPath) (hff : cfg.failFast = true) :
    ∀ (entries : List CleanupEntry) (w : World σ) (acc res : List OperationResult)
      (w' : World σ),
      execSeqLoop ops cfg base entries w acc = (Except.ok res, w') →
      (∀ a ∈ acc, a.status ≠ OperationStatus.Failed) →
      ((∀ a ∈ res.dropLast, a.status ≠ OperationStatus.Failed)
       ∧ ∃ n, execSeqLoop ops cfg base (entries.take n) w acc = (Except.ok res, w')
          ∧ ((∃ a ∈ res, a.status = OperationStatus.Failed) →
             ∃ op, res.getLast? = some op ∧ op.status = OperationStatus.Failed)) := by
  intro entries
  induction entries with
  | nil =>
    intro w acc res w' h hacc
    simp only [execSeqLoop] at h
    rw [Prod.mk.injEq] at h
    obtain ⟨h1, h2⟩ := h
    rw [Except.ok.injEq] at h1
    subst h1
    subst h2
    refine ⟨fun a ha => hacc a ((List.dropLast_sublist _).subset ha), 0, rfl, ?_⟩
    intro hex
    obtain ⟨a, ha, hst⟩ := hex
    exact absurd hst (hacc a ha)
  | cons e rest ih =>
    intro w acc res w' h hacc
    simp only [execSeqLoop] at h
    by_cases hmode : (cfg.mode == ExecutionMode.Interactive) = true
    · rw [if_pos hmode] at h
      cases hpu : promptUser w with
      | mk choice w1 =>
        rw [hpu] at h
        cases choice with
        | yes =>
          simp only at h
          by_cases hfe : ((executeSingle ops cfg (base ++ e.path) e w1).1.status
              == OperationStatus.Failed) = true
          · rw [hff] at h
            simp only [Bool.true_and, hfe, if_pos] at h
            rw [Prod.mk.injEq] at h
            obtain ⟨h1, h2⟩ := h
            rw [Except.ok.injEq] at h1
            subst h1
            subst h2
            constructor
            · rw [List.dropLast_concat]
              exact hacc
            · refine ⟨1, ?_, ?_⟩
              · simp only [List.take_succ_cons, List.take_zero, execSeqLoop,
                  if_pos hmode, hpu]
                simp only [hff, Bool.true_and, hfe, if_pos]
              · intro _
                exact ⟨_, List.getLast?_concat _, by simpa using hfe⟩
          · rw [hff] at h
            simp only [Bool.true_and, hfe, Bool.false_eq_true, if_false] at h
            have hne : (executeSingle ops cfg (base ++ e.path) e w1).1.status
                ≠ OperationStatus.Failed := by simpa using hfe
            have hacc' : ∀ a ∈ acc ++ [(executeSingle ops cfg (base ++ e.path) e w1).1],
                a.status ≠ OperationStatus.Failed := by
              intro a ha
              rcases List.mem_append.mp ha with h0 | h0
              · exact hacc a h0
              · rw [List.mem_singleton.mp h0]
                exact hne
            obtain ⟨hdl, n, hn, hlast⟩ := ih _ _ _ _ h hacc'
            refine ⟨hdl, n + 1, ?_, hlast⟩
            simp only [List.take_succ_cons, execSeqLoop, if_pos hmode, hpu]
            simp only [hff, Bool.true_and, hfe, Bool.false_eq_true, if_false]
            exact hn
        | no =>
          simp only at h
          have hacc' : ∀ a ∈ acc ++ [skipRecord (base ++ e.path) (tick w1).1],
              a.status ≠ OperationStatus.Failed := by
            intro a ha
            rcases List.mem_append.mp ha with h0 | h0
            · exact hacc a h0
            · rw [List.mem_singleton.mp h0]
              intro hc
              cases hc
          obtain ⟨hdl, n, hn, hlast⟩ := ih _ _ _ _ h hacc'
          refine ⟨hdl, n + 1, ?_, hlast⟩
          simp only [List.take_succ_cons, execSeqLoop, if_pos hmode, hpu]
          exact hn
        | abort =>
          simp only at h
          rw [Prod.mk.injEq] at h
          obtain ⟨h1, _⟩ := h
          cases h1
    · rw [if_neg hmode] at h
      by_cases hfe : ((executeSingle ops cfg (base ++ e.path) e w).1.status
          == OperationStatus.Failed) = true
      · rw [hff] at h
        simp only [Bool.true_and, hfe, if_pos] at h
        rw [Prod.mk.injEq] at h
        obtain ⟨h1, h2⟩ := h
        rw [Except.ok.injEq] at h1
        subst h1
        subst h2
        constructor
        · rw [List.dropLast_concat]
          exact hacc
        · refine ⟨1, ?_, ?_⟩
          · simp only [List.take_succ_cons, List.take_zero, execSeqLoop, if_neg hmode]
            simp only [hff, Bool.true_and, hfe, if_pos]
          · intro _
            exact ⟨_, List.getLast?_concat _, by simpa using hfe⟩
      · rw [hff] at h
        simp only [Bool.true_and, hfe, Bool.false_eq_true, if_false] at h
        have hne : (executeSingle ops cfg (base ++ e.path) e w).1.status
            ≠ OperationStatus.Failed := by simpa using hfe
        have hacc' : ∀ a ∈ acc ++ [(executeSingle ops cfg (base ++ e.path) e w).1],
            a.status ≠ OperationStatus.Failed := by
          intro a ha
          rcases List.mem_append.mp ha with h0 | h0
          · exact hacc a h0
          · rw [List.mem_singleton.mp h0]
            exact hne
        obtain ⟨hdl, n, hn, hlast⟩ := ih _ _ _ _ h hacc'
        refine ⟨hdl, n + 1, ?_, hlast⟩
        simp only [List.take_succ_cons, execSeqLoop, if_neg hmode]
        simp only [hff, Bool.true_and, hfe, Bool.false_eq_true, if_false]
        exact hn

/-- C7: in sequential execution with fail-fast enabled, when the result
contains a failed operation, that failed record is the last one, no
earlier record is failed, and the whole outcome already arises from a
prefix of the plan's Delete-filtered entry order — no later entry is
ever attempted. -/
theorem c7_sequential_failfast_stops {σ : Type} (ops : FsOps σ) (cfg : ExecutionConfig)
    (w : World σ) (plan : CleanupPlan) (res : ExecutionResult) (w' : World σ)
    (hff : cfg.failFast = true)
    (hok : executeSequential ops cfg w plan = (Except.ok res, w'))
    (hfail : ∃ op ∈ res.operations, op.status = OperationStatus.Failed) :
    (∃ op, res.operations.getLast? = some op ∧ op.status = OperationStatus.Failed)
    ∧ (∀ op ∈ res.operations.dropLast, op.status ≠ OperationStatus.Failed)
    ∧ ∃ n, executeSequential ops cfg w
        { plan with entries :=
            (plan.entries.filter (fun e => e.action == CleanupAction.Delete)).take n }
        = (Except.ok res, w') := by
  simp only [executeSequential] at hok
  cases hl : execSeqLoop ops cfg plan.basePath
      (plan.entries.filter (fun e => e.action == CleanupAction.Delete)) w [] with
  | mk r1 w2 =>
    rw [hl] at hok
    cases r1 with
    | error er => simp at hok
    | ok opsList =>
      have hok2 : (Except.ok (⟨opsList, computeSummary opsList (w2.clock - w.clock)⟩
          : ExecutionResult), w2) = (Except.ok res, w') := hok
      rw [Prod.mk.injEq] at hok2
      obtain ⟨h1, h2⟩ := hok2
      rw [Except.ok.injEq] at h1
      subst h2
      obtain ⟨hdl, n, hn, hlast⟩ := execSeqLoop_failfast ops cfg plan.basePath hff
        _ w [] opsList w2 hl (fun a ha => absurd ha (List.not_mem_nil a))
      have hres : res.operations = opsList := by rw [← h1]
      refine ⟨?_, ?_, n, ?_⟩
      · rw [hres]
        exact hlast (hres ▸ hfail)
      · rw [hres]
        exact hdl
      · simp only [executeSequential, filter_take_filter]
        rw [hn]
        have hfin : ((Except.ok (⟨opsList, computeSummary opsList (w2.clock - w.clock)⟩
              : ExecutionResult) : Except ExecutionError ExecutionResult), w2)
            = ((Except.ok res : Except ExecutionError ExecutionResult), w2) := by
          rw [h1]
        exact hfin

/-- Operation oracle over the unit state whose mutations all fail. -/
def failingFsOps : FsOps Unit :=
  ⟨fun _ _ => false, fun s _ => (some "e", s), fun s _ => (some "e", s),
   fun s _ => (none, s), fun s _ _ => (none, s), fun s _ => (some "e", s)⟩

/-- A batch, fail-fast configuration. -/
def failFastCfg : ExecutionConfig :=
  ⟨ExecutionMode.Batch, none, true, false, false, 100⟩

/-- A two-entry Delete plan. -/
def twoDeletePlan : CleanupPlan :=
  ⟨"0.1.0", 0, ["", "b"],
   [⟨["x"], 7, "t", CleanupAction.Delete, "r", "rr"⟩,
    ⟨["y"], 8, "t", CleanupAction.Delete, "r", "rr"⟩]⟩

/-- The execution result of the fail-fast run: only the first entry was
attempted, and it failed. -/
def failFastRes : ExecutionResult :=
  ⟨[⟨["", "b", "x"], OperationAction.Delete, OperationStatus.Failed, none, some "e", 0⟩],
   ⟨1, 0, 1, 0, 0, 1⟩⟩

/-- Witness for C7 at a concrete failing execution. -/
theorem c7_sequential_failfast_stops_witness :
    (∃ op, failFastRes.operations.getLast? = some op
        ∧ op.status = OperationStatus.Failed)
    ∧ (∀ op ∈ failFastRes.operations.dropLast, op.status ≠ OperationStatus.Failed)
    ∧ ∃ n, executeSequential failingFsOps failFastCfg (⟨(), 0, []⟩ : World Unit)
        { twoDeletePlan with entries :=
            (twoDeletePlan.entries.filter
              (fun e => e.action == CleanupAction.Delete)).take n }
        = (Except.ok failFastRes, (⟨(), 1, []⟩ : World Unit)) :=
  c7_sequential_failfast_stops failingFsOps failFastCfg ⟨(), 0, []⟩ twoDeletePlan
    failFastRes ⟨(), 1, []⟩ rfl (by decide) (by decide)

/-! Verifier lemmas for C8 and C10. -/

/-- Total number of accounted outcomes of a verification result. -/
def bucketTotal (r : VerificationResult) : Nat :=
  r.verified + r.drifted.length + r.missing.length + r.permissionErrors.length

/-- Findings of a pass, as one list of paths. -/
def combinedFindings (r : VerificationResult) : List FsPath :=
  r.missing ++ (r.drifted.map (fun d => d.path) ++ r.permissionErrors)

/-- Which filesystem observation put a path into each bucket: missing
paths did not exist, permission paths existed but had no readable
metadata, drifted paths existed with readable metadata. -/
def bucketInv (env : VerEnv) (r : VerificationResult) : Prop :=
  (∀ p ∈ r.missing, env.pexists p = false)
  ∧ (∀ p ∈ r.permissionErrors, env.pexists p = true ∧ env.metadata p = Except.error ())
  ∧ (∀ d ∈ r.drifted, env.pexists d.path = true ∧ ∃ md, env.metadata d.path = Except.ok md)

theorem combined_push_missing (r : VerificationResult) (x : FsPath) :
    combinedFindings { r with missing := r.missing ++ [x] }
      |>.Perm (x :: combinedFindings r) := by
  unfold combinedFindings
  simp only [List.append_assoc, List.singleton_append]
  exact List.perm_middle

theorem combined_push_perm (r : VerificationResult) (x : FsPath) :
    combinedFindings { r with permissionErrors := r.permissionErrors ++ [x] }
      |>.Perm (x :: combinedFindings r) := by
  unfold combinedFindings
  have h1 : r.missing ++ (r.drifted.map (fun d => d.path) ++ (r.permissionErrors ++ [x]))
      = (r.missing ++ (r.drifted.map (fun d => d.path) ++ r.permissionErrors)) ++ [x] := by
    simp [List.append_assoc]
  rw [h1]
  exact List.perm_append_singleton x _

theorem combined_push_drift (r : VerificationResult) (dd : DriftDetection) :
    combinedFindings { r with drifted := r.drifted ++ [dd] }
      |>.Perm (dd.path :: combinedFindings r) := by
  unfold combinedFindings
  simp only [List.map_append, List.map_cons, List.map_nil, List.singleton_append]
  have h1 : r.missing ++ ((r.drifted.map (fun d => d.path) ++ [dd.path])
        ++ r.permissionErrors)
      = (r.missing ++ r.drifted.map (fun d => d.path))
        ++ (dd.path :: r.permissionErrors) := by
    simp [List.append_assoc]
  rw [h1]
  refine List.perm_middle.trans ?_
  rw [List.append_assoc]

/-- What one examined entry may do to the accumulated result: the
totals field is untouched, exactly one bucket grows by one, the bucket
origins are maintained, and the findings list gains at most the entry's
full path. -/
def stepOk (env : VerEnv) (x : FsPath) (r r' : VerificationResult) : Prop :=
  r'.totalEntries = r.totalEntries
  ∧ bucketTotal r' = bucketTotal r + 1
  ∧ (bucketInv env r → bucketInv env r')
  ∧ (combinedFindings r' = combinedFindings r
     ∨ (combinedFindings r').Perm (x :: combinedFindings r))

/-- stepOk lifted over a step outcome; aborting steps record nothing. -/
def stepPred (env : VerEnv) (x : FsPath) (r : VerificationResult) : VStep → Prop
  | VStep.abort _ => True
  | VStep.finish r' => stepOk env x r r'
  | VStep.next r' => stepOk env x r r'

theorem stepOk_verified (env : VerEnv) (x : FsPath) (r : VerificationResult) :
    stepOk env x r { r with verified := r.verified + 1 } := by
  refine ⟨rfl, ?_, fun h => h, Or.inl rfl⟩
  simp [bucketTotal]
  omega

theorem stepOk_drift (env : VerEnv) (x : FsPath) (r : VerificationResult)
    (dd : DriftDetection) (hpath : dd.path = x)
    (hex : env.pexists x = true) (hmd : ∃ md, env.metadata x = Except.ok md) :
    stepOk env x r { r with drifted := r.drifted ++ [dd] } := by
  refine ⟨rfl, ?_, ?_, Or.inr (hpath ▸ combined_push_drift r dd)⟩
  · simp [bucketTotal]
    omega
  · intro ⟨i1, i2, i3⟩
    refine ⟨i1, i2, ?_⟩
    intro d hd
    rcases List.mem_append.mp hd with h0 | h0
    · exact i3 d h0
    · rw [List.mem_singleton.mp h0, hpath]
      exact ⟨hex, hmd⟩

theorem verifyMtimeStep_ok (cfg : VerificationConfig) (env : VerEnv)
    (r : VerificationResult) (e : CleanupEntry) (full : FsPath) (md : WalkMeta)
    (hex : env.pexists full = true) (hmd : env.metadata full = Except.ok md) :
    stepPred env full r (verifyMtimeStep cfg env r e full md) := by
  unfold verifyMtimeStep
  by_cases hcm : cfg.checkMtime = true
  · rw [if_pos hcm]
    cases md.modified with
    | none => exact trivial
    | some cur =>
      simp only []
      cases env.parse e.modified with
      | none => exact trivial
      | some expected =>
        simp only []
        by_cases hdiff : 2 < (cur - expected).natAbs
        · rw [if_pos hdiff]
          by_cases hffv : cfg.failFast = true
          · rw [if_pos hffv]
            exact stepOk_drift env full r _ rfl hex ⟨md, hmd⟩
          · rw [if_neg hffv]
            exact stepOk_drift env full r _ rfl hex ⟨md, hmd⟩
        · rw [if_neg hdiff]
          exact stepOk_verified env full r
  · rw [if_neg hcm]
    exact stepOk_verified env full r

theorem verifySizeStep_ok (cfg : VerificationConfig) (env : VerEnv)
    (r : VerificationResult) (e : CleanupEntry) (full : FsPath) (md : WalkMeta)
    (hex : env.pexists full = true) (hmd : env.metadata full = Except.ok md) :
    stepPred env full r (verifySizeStep cfg env r e full md) := by
  unfold verifySizeStep
  by_cases hcs : cfg.checkSize = true
  · rw [if_pos hcs]
    cases (if md.kind == MetaKind.dir then env.dirSize full else Except.ok md.len) with
    | error er => exact trivial
    | ok cur =>
      simp only []
      by_cases hne : (!(cur == e.size)) = true
      · rw [if_pos hne]
        by_cases hffv : cfg.failFast = true
        · rw [if_pos hffv]
          exact stepOk_drift env full r _ rfl hex ⟨md, hmd⟩
        · rw [if_neg hffv]
          exact stepOk_drift env full r _ rfl hex ⟨md, hmd⟩
      · rw [if_neg hne]
        exact verifyMtimeStep_ok cfg env r e full md hex hmd
  · rw [if_neg hcs]
    exact verifyMtimeStep_ok cfg env r e full md hex hmd

theorem verifyEntry_ok (cfg : VerificationConfig) (env : VerEnv) (base : FsPath)
    (r : VerificationResult) (e : CleanupEntry) :
    stepPred env (base ++ e.path) r (verifyEntry cfg env base r e) := by
  unfold verifyEntry
  by_cases hkeep : (e.action == CleanupAction.Keep) = true
  · rw [if_pos hkeep]
    exact stepOk_verified env (base ++ e.path) r
  · rw [if_neg hkeep]
    by_cases hex : env.pexists (base ++ e.path) = true
    · rw [if_neg (by simp [hex])]
      cases hmd : env.metadata (base ++ e.path) with
      | error er =>
        cases er
        refine ⟨rfl, ?_, ?_, Or.inr (combined_push_perm r _)⟩
        · simp [bucketTotal]
          omega
        · intro ⟨i1, i2, i3⟩
          refine ⟨i1, ?_, i3⟩
          intro p hp
          rcases List.mem_append.mp hp with h0 | h0
          · exact i2 p h0
          · rw [List.mem_singleton.mp h0]
            exact ⟨hex, hmd⟩
      | ok md => exact verifySizeStep_ok cfg env r e (base ++ e.path) md hex hmd
    · have hex' : env.pexists (base ++ e.path) = false := by
        cases hpe : env.pexists (base ++ e.path) with
        | true => exact absurd hpe hex
        | false => rfl
      rw [if_pos (by simp [hex'])]
      have hstep : stepOk env (base ++ e.path) r
          { r with missing := r.missing ++ [base ++ e.path] } := by
        refine ⟨rfl, ?_, ?_, Or.inr (combined_push_missing r _)⟩
        · simp [bucketTotal]
          omega
        · intro ⟨i1, i2, i3⟩
          refine ⟨?_, i2, i3⟩
          intro p hp
          rcases List.mem_append.mp hp with h0 | h0
          · exact i1 p h0
          · rw [List.mem_singleton.mp h0]
            exact hex'
      by_cases hffv : cfg.failFast = true
      · rw [if_pos hffv]
        exact hstep
      · rw [if_neg hffv]
        exact hstep

theorem verifyLoop_ok (cfg : VerificationConfig) (env : VerEnv) (base : FsPath) :
    ∀ (l : List CleanupEntry) (r res : VerificationResult),
      verifyLoop cfg env base l r = Except.ok res →
      (res.totalEntries = r.totalEntries
        ∧ bucketTotal res ≤ bucketTotal r + l.length)
      ∧ (bucketInv env r → bucketInv env res)
      ∧ ((l.map (fun e => base ++ e.path)).Nodup →
          (∀ e ∈ l, (base ++ e.path) ∉ combinedFindings r) →
          (combinedFindings r).Nodup → (combinedFindings res).Nodup) := by
  intro l
  induction l with
  | nil =>
    intro r res h
    have hres : r = res := by simpa [verifyLoop] using h
    subst hres
    exact ⟨⟨rfl, Nat.le_add_right _ _⟩, fun h0 => h0, fun _ _ hnd => hnd⟩
  | cons e rest ih =>
    intro r res h
    simp only [verifyLoop] at h
    cases hv : verifyEntry cfg env base r e with
    | abort er =>
      rw [hv] at h
      simp at h
    | finish r' =>
      rw [hv] at h
      have hr : r' = res := by simpa using h
      subst hr
      have hstep := verifyEntry_ok cfg env base r e
      rw [hv] at hstep
      obtain ⟨htot, hsum, hinv, hcomb⟩ := hstep
      refine ⟨⟨htot, ?_⟩, fun h0 => hinv h0, ?_⟩
      · simp only [List.length_cons]
        omega
      · intro hnd hnotin hnodup
        rcases hcomb with hceq | hcperm
        · rw [hceq]
          exact hnodup
        · apply hcperm.symm.nodup
          exact List.nodup_cons.mpr ⟨hnotin e (List.mem_cons_self e rest), hnodup⟩
    | next r' =>
      rw [hv] at h
      have hstep := verifyEntry_ok cfg env base r e
      rw [hv] at hstep
      obtain ⟨htot, hsum, hinv, hcomb⟩ := hstep
      obtain ⟨⟨htot2, hsum2⟩, hinv2, hnd2⟩ := ih r' res h
      refine ⟨⟨htot2.trans htot, ?_⟩, fun h0 => hinv2 (hinv h0), ?_⟩
      · simp only [List.length_cons]
        omega
      · intro hnd hnotin hnodup
        simp only [List.map_cons] at hnd
        have hx : (base ++ e.path) ∉ combinedFindings r :=
          hnotin e (List.mem_cons_self e rest)
        have hmemiff : ∀ y, y ∈ combinedFindings r' →
            y = (base ++ e.path) ∨ y ∈ combinedFindings r := by
          intro y hy
          rcases hcomb with hceq | hcperm
          · rw [hceq] at hy
            exact Or.inr hy
          · rcases List.mem_cons.mp (hcperm.mem_iff.mp hy) with h0 | h0
            · exact Or.inl h0
            · exact Or.inr h0
        apply hnd2 (List.nodup_cons.mp hnd).2
        · intro e' he' hyin
          rcases hmemiff _ hyin with h0 | h0
          · apply (List.nodup_cons.mp hnd).1
            rw [← h0]
            exact List.mem_map_of_mem _ he'
          · exact hnotin e' (List.mem_cons_of_mem e he') h0
        · rcases hcomb with hceq | hcperm
          · rw [hceq]
            exact hnodup
          · apply hcperm.symm.nodup
            exact List.nodup_cons.mpr ⟨hx, hnodup⟩

/-- C8: every verification result verify returns satisfies the
accounting invariant: the verified count plus the drifted and missing
list lengths never exceeds the total, paths with permission errors sit
in neither the missing nor the drifted bucket, and they are excluded
from the verified count too (all four buckets together still fit in
the total). -/
theorem c8_bucket_accounting (cfg : VerificationConfig) (env : VerEnv)
    (plan : CleanupPlan) (r : VerificationResult)
    (hok : verify cfg env plan = Except.ok r) :
    (r.verified + r.drifted.length + r.missing.length ≤ r.totalEntries)
    ∧ (∀ p ∈ r.permissionErrors, p ∉ r.missing ∧ ∀ d ∈ r.drifted, d.path ≠ p)
    ∧ (r.verified + r.drifted.length + r.missing.length + r.permissionErrors.length
        ≤ r.totalEntries) := by
  unfold verify at hok
  obtain ⟨⟨htot, hsum⟩, hinv, _⟩ := verifyLoop_ok cfg env plan.basePath plan.entries
    ⟨plan.entries.length, 0, [], [], []⟩ r hok
  have h0 : bucketTotal ⟨plan.entries.length, 0, [], [], []⟩ = 0 := rfl
  have htot' : r.totalEntries = plan.entries.length := htot
  have hsum' : bucketTotal r ≤ plan.entries.length := by omega
  have hinvr : bucketInv env r := by
    apply hinv
    refine ⟨?_, ?_, ?_⟩ <;> intro p hp <;> cases hp
  obtain ⟨i1, i2, i3⟩ := hinvr
  have hkey : r.verified + r.drifted.length + r.missing.length
      + r.permissionErrors.length ≤ r.totalEntries := by
    unfold bucketTotal at hsum'
    omega
  refine ⟨by omega, ?_, hkey⟩
  intro p hp
  obtain ⟨hpe, hpm⟩ := i2 p hp
  constructor
  · intro hin
    have hcontra := i1 p hin
    rw [hpe] at hcontra
    cases hcontra
  · intro d hd hdp
    obtain ⟨_, md, hmdo⟩ := i3 d hd
    rw [hdp, hpm] at hmdo
    cases hmdo

/-- The default verification configuration. -/
def vDefaultCfg : VerificationConfig := ⟨true, true, false⟩

/-- A verification environment over an empty filesystem: nothing
exists, metadata is never readable. -/
def missEnv : VerEnv :=
  ⟨fun _ => false, fun _ => Except.error (), fun _ => Except.ok 0,
   fun _ => some 0, fun _ => "t"⟩

/-- Witness for C8 at a concrete pass: one Delete entry over a missing
path. -/
theorem c8_bucket_accounting_witness :
    (∀ r : VerificationResult,
      verify vDefaultCfg missEnv oneDeletePlan = Except.ok r →
      (r.verified + r.drifted.length + r.missing.length ≤ r.totalEntries)
      ∧ (∀ p ∈ r.permissionErrors, p ∉ r.missing ∧ ∀ d ∈ r.drifted, d.path ≠ p)
      ∧ (r.verified + r.drifted.length + r.missing.length + r.permissionErrors.length
          ≤ r.totalEntries))
    ∧ verify vDefaultCfg missEnv oneDeletePlan
        = Except.ok ⟨1, 0, [], [["", "b", "x"]], []⟩ :=
  ⟨fun r hr => c8_bucket_accounting vDefaultCfg missEnv oneDeletePlan r hr, by decide⟩

/-- A plan listing the same missing path twice with disposition
Delete. -/
def dupMissingPlan : CleanupPlan :=
  ⟨"0.1.0", 0, ["", "b"],
   [⟨["x"], 7, "t", CleanupAction.Delete, "r", "rr"⟩,
    ⟨["x"], 7, "t", CleanupAction.Delete, "r", "rr"⟩]⟩

/-- C10 counterexample: when the same path occurs in two plan entries,
one verification pass records it twice (here twice under missing), so
a path can appear twice across the finding lists. -/
theorem c10_duplicate_path_two_findings_cx :
    verify vDefaultCfg missEnv dupMissingPlan
        = Except.ok ⟨2, 0, [], [["", "b", "x"], ["", "b", "x"]], []⟩
    ∧ ¬ (combinedFindings ⟨2, 0, [], [["", "b", "x"], ["", "b", "x"]], []⟩).Nodup :=
  ⟨by decide, by decide⟩

/-- C10 (amended): each examined entry records at most one finding, so
when the plan's entries resolve to pairwise distinct full paths, no
path appears twice across the drifted, missing, and permission-error
lists of one verification pass. -/
theorem c10_at_most_one_finding_amended (cfg : VerificationConfig) (env : VerEnv)
    (plan : CleanupPlan) (r : VerificationResult)
    (hnd : (plan.entries.map (fun e => plan.basePath ++ e.path)).Nodup)
    (hok : verify cfg env plan = Except.ok r) :
    (combinedFindings r).Nodup := by
  unfold verify at hok
  obtain ⟨_, _, hnodup⟩ := verifyLoop_ok cfg env plan.basePath plan.entries
    ⟨plan.entries.length, 0, [], [], []⟩ r hok
  apply hnodup hnd
  · intro e he hin
    cases hin
  · exact List.nodup_nil

/-- Witness for C10 (amended) at a two-entry plan with distinct paths,
both missing. -/
theorem c10_at_most_one_finding_witness :
    ((twoDeletePlan.entries.map (fun e => twoDeletePlan.basePath ++ e.path)).Nodup)
    ∧ verify vDefaultCfg missEnv twoDeletePlan
        = Except.ok ⟨2, 0, [], [["", "b", "x"], ["", "b", "y"]], []⟩
    ∧ (combinedFindings ⟨2, 0, [], [["", "b", "x"], ["", "b", "y"]], []⟩).Nodup :=
  ⟨by decide, by decide,
   c10_at_most_one_finding_amended vDefaultCfg missEnv twoDeletePlan
     ⟨2, 0, [], [["", "b", "x"], ["", "b", "y"]], []⟩ (by decide) (by decide)⟩

end Megamaid
